import Mathlib

/-!
Verification of the data-migration engine of the django-data-migration
repository (src/data_migration/migration.py) against its natural-language
specification.

The Python source is shallowly embedded: the module-level descriptor builder
is_a and the classmethods of the Migration base class (migration_required,
check_migration, migrate, process_cursor, process_cursor_for_update,
transform_row_dataset, get_object, create_m2ms) become executable Lean
functions.  Python exceptions become an explicit error type, and the
observable actions of a run (SQL query execution, hook invocations, saves,
many-to-many association, ledger writes, skip notices) are collected in an
event trace so that ordering and counting properties can be stated.

The dependency sorter and the transactional orchestrator (Migrator) are
referenced by the repository tests but their code is not part of the
sources; those two components are modelled from the specification and are
marked as such in their doc comments.
-/

deriving instance DecidableEq for Except

namespace DataMigration

/-- A saved target-model instance: its model class name and its scalar
attributes.  Related instances stored on foreign-key fields are not
modelled as searchable attributes (lookups in the source always go through
scalar search attributes). -/
structure Inst where
  klass : String
  attrs : List (String × Option String)
deriving DecidableEq

/-- Result of evaluating one column of a source row: either a raw source
value passed through unchanged, or the (possibly absent) related instance
resolved for a foreign-key / one-to-one column. -/
inductive CVal where
  | raw (v : Option String)
  | ref (i : Option Inst)
deriving DecidableEq

/-- One row returned by the source query: a mapping from column name to the
raw value (None or a string), as handed to transform_row_dataset. -/
abbrev Row := List (String × Option String)

/-- The exceptions the embedded code can raise: ImproperlyConfigured,
SomeModel.DoesNotExist (tagged with the model class whose manager raised
it) and KeyError (dictionary access on a missing key). -/
inductive MigErr where
  | improperlyConfigured (msg : String)
  | doesNotExist (klass : String)
  | keyError (k : String)
deriving DecidableEq

/-- Observable actions of a migration run, in execution order. -/
inductive Ev where
  | skipNotice (name : String)
  | executeQuery (q : String)
  | beforeAll
  | afterAll
  | beforeTransformation (row : Row)
  | lookup (klass : String) (attr : String) (value : Option String)
  | beforeSave (inst : Inst) (row : Row)
  | save (inst : Inst)
  | addM2M (inst : Inst) (field : String) (vals : List Inst)
  | afterSave (inst : Inst) (row : Row)
  | updateExisting (inst : Inst) (row : Row)
  | createdAppliedMigration (name : String)
deriving DecidableEq

/-- Execution result of a piece of migration code: the trace of events it
emitted (also on failure, up to the failure point) together with either its
value or the exception that propagated. -/
abbrev Run (α : Type) : Type := List Ev × Except MigErr α

namespace Run

def pureR (a : α) : Run α := ([], Except.ok a)

def bindR (x : Run α) (f : α → Run β) : Run β :=
  match x with
  | (evs, Except.error e) => (evs, Except.error e)
  | (evs, Except.ok a) => (evs ++ (f a).1, (f a).2)

end Run

instance : Monad Run where
  pure := Run.pureR
  bind := Run.bindR

/-- Emit one observable event. -/
def emit (e : Ev) : Run Unit := ([e], Except.ok ())

/-- Raise an exception. -/
def thr (e : MigErr) : Run α := ([], Except.error e)

/-- Lift a silent (event-free) computation into a run. -/
def ofExcept (x : Except MigErr α) : Run α := ([], x)

/-- Character-level worker for pySplit: split at every left-to-right,
non-overlapping occurrence of the (non-empty) separator.  cur holds the
reversed chars of the piece being read; the fuel is at least the input
length plus one, so it never runs out. -/
def splitChars (sep : List Char) : Nat → List Char → List Char → List (List Char)
  | 0, cur, _ => [cur.reverse]
  | Nat.succ f, cur, s =>
      match s with
      | [] => [cur.reverse]
      | c :: rest =>
          if sep.isPrefixOf (c :: rest) then
            cur.reverse :: splitChars sep f [] ((c :: rest).drop sep.length)
          else splitChars sep f (c :: cur) rest

/-- The Python split operation value.split(delimiter) for a non-empty
delimiter: "".split(d) is [""], and a delimiter occurrence at either end
contributes an empty piece. -/
def pySplit (s delim : String) : List String :=
  (splitChars delim.toList (s.toList.length + 1) [] s.toList).map String.mk

/-- The dictionary returned by is_a in migration.py: how one output field is
derived from one source column.  Field order follows the literal in the
source. -/
structure ColumnDesc where
  m2m : Bool
  klass : String
  fk : Bool
  o2o : Bool
  attr : String
  exclude : Bool
  delimiter : String
  skip_missing : Bool
deriving DecidableEq

/-- Embedding of the module-level descriptor builder is_a(klass,
search_attr, fk, m2m, o2o, exclude, delimiter, skip_missing).  The Python
defaults are fk=m2m=o2o=exclude=False, delimiter=";" and
skip_missing=False; callers of the embedding pass all arguments
positionally.  The only validation the source performs is the search_attr
None check. -/
def is_a (klass : String) (search_attr : Option String) (fk : Bool)
    (m2m : Bool) (o2o : Bool) (excl : Bool) (delimiter : String)
    (skip_missing : Bool) : Except MigErr ColumnDesc :=
  match search_attr with
  | none =>
      Except.error (MigErr.improperlyConfigured
        (String.append "is_a requires that you set a search_attr in " klass))
  | some a =>
      Except.ok (ColumnDesc.mk m2m klass fk o2o a excl delimiter skip_missing)

/-- The database visible to klass.objects.get: returns the first stored
instance of the given class whose attribute equals the looked-up value
(Django would raise MultipleObjectsReturned on a second match; uniqueness
of search attributes is assumed, as the spec requires). -/
def findInst (db : List Inst) (klass : String) (attr : String)
    (value : Option String) : Option Inst :=
  db.find? (fun i => i.klass == klass && i.attrs.lookup attr == some value)

/-- Embedding of Migration.get_object.  mn is the name of self.model, the
class of the migration the method runs on.  A miss raises
desc.klass.DoesNotExist; the except clause of the source catches
self.model.DoesNotExist, so the miss is handled (and skip_missing
consulted) only when the descriptor class is the migration model itself —
for any other class the exception propagates regardless of skip_missing. -/
def get_object (mn : String) (db : List Inst) (desc : ColumnDesc)
    (value : Option String) : Run (Option Inst) := do
  emit (Ev.lookup desc.klass desc.attr value)
  match findInst db desc.klass desc.attr value with
  | some i => pure (some i)
  | none =>
      if desc.klass = mn then
        if desc.skip_missing then pure none
        else thr (MigErr.doesNotExist desc.klass)
      else thr (MigErr.doesNotExist desc.klass)

/-- The token loop of the m2m branch of transform_row_dataset: resolve each
token with get_object, dropping tokens that resolve to None and keeping
the found instances in order. -/
def resolve_tokens (mn : String) (db : List Inst) (desc : ColumnDesc) :
    List String → Run (List Inst)
  | [] => pure []
  | t :: rest => do
      let element ← get_object mn db desc (some t)
      match element with
      | none => resolve_tokens mn db desc rest
      | some e => do
          let others ← resolve_tokens mn db desc rest
          pure (e :: others)

/-- Embedding of Migration.transform_row_dataset: walk the row in order;
described columns are excluded, resolved as single-valued relations
(stored into the constructor data even when the resolution is None), or
split and resolved as many-to-many relations (deferred, a None raw value
contributing nothing); a described column with no relation kind set is
dropped; undescribed columns pass through unchanged. -/
def transform_row_dataset (mn : String) (cd : List (String × ColumnDesc))
    (db : List Inst) : Row → Run (List (String × CVal) × List (String × List Inst))
  | [] => pure ([], [])
  | (f, data) :: rest =>
      match cd.lookup f with
      | some desc =>
          if desc.exclude then transform_row_dataset mn cd db rest
          else if desc.fk || desc.o2o then do
            let inst0 ← get_object mn db desc data
            let r ← transform_row_dataset mn cd db rest
            pure ((f, CVal.ref inst0) :: r.1, r.2)
          else if desc.m2m then
            match data with
            | none => transform_row_dataset mn cd db rest
            | some s => do
                let users ← resolve_tokens mn db desc (pySplit s desc.delimiter)
                let r ← transform_row_dataset mn cd db rest
                pure (r.1, (f, users) :: r.2)
          else transform_row_dataset mn cd db rest
      | none => do
          let r ← transform_row_dataset mn cd db rest
          pure ((f, CVal.raw data) :: r.1, r.2)

/-- Instantiation self.model(**constructor_data): the new in-memory record.
Raw pass-through columns become its scalar attributes; related instances
sit on relation fields, which the embedded database does not index. -/
def mk_instance (mn : String) (cdata : List (String × CVal)) : Inst :=
  Inst.mk mn (cdata.filterMap (fun p =>
    match p.2 with
    | CVal.raw v => some (p.1, v)
    | CVal.ref _ => none))

/-- Embedding of Migration.create_m2ms: associate the saved instance with
every resolved related value, field by field. -/
def create_m2ms (inst0 : Inst) : List (String × List Inst) → Run Unit
  | [] => pure ()
  | (f, vs) :: rest => do
      emit (Ev.addM2M inst0 f vs)
      create_m2ms inst0 rest

/-- The per-row body of the fresh-run loop of Migration.process_cursor
(steps also repeated verbatim in the not-found branch of
process_cursor_for_update): hook_before_transformation, transform,
instantiate, hook_before_save, save, create_m2ms, hook_after_save.
Returns the database extended with the newly saved instance. -/
def process_row (mn : String) (cd : List (String × ColumnDesc))
    (db : List Inst) (row : Row) : Run (List Inst) := do
  emit (Ev.beforeTransformation row)
  let r ← transform_row_dataset mn cd db row
  let inst0 := mk_instance mn r.1
  emit (Ev.beforeSave inst0 row)
  emit (Ev.save inst0)
  create_m2ms inst0 r.2
  emit (Ev.afterSave inst0 row)
  pure (db ++ [inst0])

/-- The row loop of Migration.process_cursor. -/
def process_rows (mn : String) (cd : List (String × ColumnDesc)) :
    List Inst → List Row → Run (List Inst)
  | db, [] => pure db
  | db, row :: rest => do
      let db2 ← process_row mn cd db row
      process_rows mn cd db2 rest

/-- Embedding of Migration.process_cursor: hook_before_all once, then every
row through the fresh-run pipeline, then hook_after_all once. -/
def process_cursor (mn : String) (cd : List (String × ColumnDesc))
    (db : List Inst) (rows : List Row) : Run (List Inst) := do
  emit Ev.beforeAll
  let db2 ← process_rows mn cd db rows
  emit Ev.afterAll
  pure db2

/-- The per-row body of Migration.process_cursor_for_update: build a
skip_missing descriptor for self.model via is_a, look up an existing
instance by search_attr = row[search_attr], call hook_update_existing on a
hit (with the raw row, creating nothing), and run the full fresh-run row
pipeline on a miss. -/
def update_row (mn : String) (sattr : Option String)
    (cd : List (String × ColumnDesc)) (db : List Inst) (row : Row) :
    Run (List Inst) := do
  let desc ← ofExcept (is_a mn sattr false false false false ";" true)
  let v ← match row.lookup desc.attr with
          | some v => pure v
          | none => thr (MigErr.keyError desc.attr)
  let element ← get_object mn db desc v
  match element with
  | some e => do
      emit (Ev.updateExisting e row)
      pure db
  | none => process_row mn cd db row

/-- Embedding of Migration.process_cursor_for_update: the update-mode row
loop.  The lifecycle hooks hook_before_all / hook_after_all are not
invoked. -/
def process_cursor_for_update (mn : String) (sattr : Option String)
    (cd : List (String × ColumnDesc)) :
    List Inst → List Row → Run (List Inst)
  | db, [] => pure db
  | db, row :: rest => do
      let db2 ← update_row mn sattr cd db row
      process_cursor_for_update mn sattr cd db2 rest

/-- A dynamically-typed configuration attribute of a Migration subclass.
check_migration tests the runtime type of each attribute, so the embedding
keeps the well-typed payloads and a constructor for every other runtime
value. -/
inductive PyObj where
  | str (s : String)
  | list (l : List String)
  | dict (d : List (String × ColumnDesc))
  | modelClass (n : String)
  | other
deriving DecidableEq

/-- The declarative class attributes of one Migration subclass, as read by
migrate / check_migration.  The name is unicode(self), the classname
recorded in AppliedMigration rows. -/
structure MigrationC where
  name : String
  abstract : Bool
  model : PyObj
  query : PyObj
  column_description : PyObj
  depends_on : PyObj
  allow_updates : Bool
  search_attr : Option String
deriving DecidableEq

/-- True when needle occurs as a substring of hay (the Python test
needle in hay, for a non-empty needle such as the SELECT literal the
source uses). -/
def strContains (hay needle : String) : Bool :=
  (pySplit hay needle).length != 1

/-- Embedding of Migration.check_migration: the five configuration checks,
in source order; the first failing check raises ImproperlyConfigured. -/
def check_migration (m : MigrationC) : Except MigErr Unit :=
  match m.column_description with
  | PyObj.dict _ =>
      if m.allow_updates && m.search_attr.isNone then
        Except.error (MigErr.improperlyConfigured
          "allow_updates forces you to set the search_attr")
      else
        match m.depends_on with
        | PyObj.list _ =>
            match m.model with
            | PyObj.modelClass _ =>
                match m.query with
                | PyObj.str q =>
                    if strContains q "SELECT" then Except.ok ()
                    else Except.error (MigErr.improperlyConfigured
                      "query has to be a string containing SELECT")
                | _ => Except.error (MigErr.improperlyConfigured
                    "query has to be a string containing SELECT")
            | _ => Except.error (MigErr.improperlyConfigured
                "model has to be a model CLASS")
        | _ => Except.error (MigErr.improperlyConfigured
            "depends_on has to be a list of classes")
  | _ => Except.error (MigErr.improperlyConfigured
      "column_description has to be a dict")

/-- Embedding of Migration.migration_required against the AppliedMigration
ledger (the list of classnames with a ledger row): True means run fresh,
None means run in update mode, False means skip. -/
def migration_required (m : MigrationC) (ledger : List String) : Option Bool :=
  if ledger.contains m.name then
    (if m.allow_updates then none else some false)
  else some true

/-- The database-visible state a run threads along: the saved target
records and the AppliedMigration ledger. -/
structure MState where
  db : List Inst
  ledger : List String
deriving DecidableEq

/-- The external source-database collaborator: executing a query string
yields the cursor rows. -/
structure Env where
  runQuery : String → List Row

/-- Access self.model as a class name; after check_migration has passed
this cannot fail. -/
def getModelName (m : MigrationC) : Run String :=
  match m.model with
  | PyObj.modelClass n => pure n
  | _ => thr (MigErr.improperlyConfigured "model has to be a model CLASS")

/-- Access self.column_description as a mapping; after check_migration has
passed this cannot fail. -/
def getColumns (m : MigrationC) : Run (List (String × ColumnDesc)) :=
  match m.column_description with
  | PyObj.dict d => pure d
  | _ => thr (MigErr.improperlyConfigured "column_description has to be a dict")

/-- Access self.query as a string; after check_migration has passed this
cannot fail. -/
def getQueryStr (m : MigrationC) : Run String :=
  match m.query with
  | PyObj.str s => pure s
  | _ => thr (MigErr.improperlyConfigured "query has to be a string")

/-- Embedding of Migration.migrate: consult migration_required once; on
False print the skip notice and return with nothing executed; otherwise
validate the configuration, execute the source query, and either run the
update-mode loop (ledger untouched) or the fresh-run pipeline followed by
creation of exactly one AppliedMigration row. -/
def migrate (env : Env) (m : MigrationC) (st : MState) : Run MState :=
  if migration_required m st.ledger = some false then do
    emit (Ev.skipNotice m.name)
    pure st
  else do
    ofExcept (check_migration m)
    let q ← getQueryStr m
    emit (Ev.executeQuery q)
    let rows := env.runQuery q
    let mn ← getModelName m
    let cd ← getColumns m
    if migration_required m st.ledger = none then do
      let db2 ← process_cursor_for_update mn m.search_attr cd st.db rows
      pure (MState.mk db2 st.ledger)
    else do
      let db2 ← process_cursor mn cd st.db rows
      emit (Ev.createdAppliedMigration m.name)
      pure (MState.mk db2 (st.ledger ++ [m.name]))

/-- One node of the dependency graph handed to the sorter: a migration unit
name together with the names it depends_on. -/
structure MUnit where
  name : String
  depends_on : List String
deriving DecidableEq

/-- Failure of the dependency sorter: a ConfigurationError naming a unit of
a dependency cycle, or fuel exhaustion (shown impossible for the fuel the
sorter supplies). -/
inductive SortErr where
  | cycle (n : String)
  | fuelOut
deriving DecidableEq

/-- Find the unit with the given name among the units being sorted. -/
def findUnit (all : List MUnit) (n : String) : Option MUnit :=
  all.find? (fun u => u.name == n)

/-- Modelled from the spec: the dependency loop of the depth-first visit of
Migrator.sort_based_on_dependency.  It walks the declared dependencies in
order, skipping names that denote no unit of the sorted set and visiting
the others with the supplied visitor vf (the depth-first visit at the
remaining fuel); an error from a nested visit propagates. -/
def visitDeps (all : List MUnit)
    (vf : List String → List MUnit → MUnit → Except SortErr (List MUnit))
    (grey : List String) : List MUnit → List String → Except SortErr (List MUnit)
  | out, [] => Except.ok out
  | out, d :: rest =>
      match findUnit all d with
      | none => visitDeps all vf grey out rest
      | some du =>
          match vf grey out du with
          | Except.error e => Except.error e
          | Except.ok out2 => visitDeps all vf grey out2 rest

/-- Modelled from the spec: the depth-first visit of
Migrator.sort_based_on_dependency, whose code is not part of the sources
(only the repository tests call it).  Per the specification it is a
standard depth-first topological sort: an already-emitted unit is skipped,
a unit marked in-progress (grey) signals a cycle and fails with a
ConfigurationError naming that unit, and otherwise the dependencies are
visited before the unit is appended to the output.  The fuel argument only
bounds the recursion depth. -/
def visit (all : List MUnit) : Nat → List String → List MUnit → MUnit →
    Except SortErr (List MUnit)
  | 0, _grey, _out, _u => Except.error SortErr.fuelOut
  | Nat.succ f, grey, out, u =>
      if out.any (fun w => w.name == u.name) then Except.ok out
      else if grey.contains u.name then Except.error (SortErr.cycle u.name)
      else
        match visitDeps all (visit all f) (u.name :: grey) out u.depends_on with
        | Except.error e => Except.error e
        | Except.ok out2 => Except.ok (out2 ++ [u])

/-- Modelled from the spec: the outer loop of the sorter, visiting the
units in input order so that units with no relative constraint keep a
deterministic, stable order. -/
def sortGo (all : List MUnit) : List MUnit → List MUnit → Except SortErr (List MUnit)
  | [], out => Except.ok out
  | u :: rest, out =>
      match visit all (all.length + 1) [] out u with
      | Except.error e => Except.error e
      | Except.ok out2 => sortGo all rest out2

/-- Modelled from the spec: Migrator.sort_based_on_dependency, absent from
the sources — a stable depth-first topological sort of the units. -/
def sortUnits (all : List MUnit) : Except SortErr (List MUnit) :=
  sortGo all all []

/-- The dependency-graph node of a Migration configuration, as the
orchestrator hands it to the sorter. -/
def unitOf (m : MigrationC) : MUnit :=
  MUnit.mk m.name (match m.depends_on with | PyObj.list l => l | _ => [])

/-- Modelled from the spec: the body of Migrator.migrate that runs the
sorted units in order inside the single transaction. -/
def run_units (env : Env) : List MigrationC → MState → Run MState
  | [], st => pure st
  | m :: rest, st => do
      let st2 ← migrate env m st
      run_units env rest st2

/-- Modelled from the spec: Migrator.migrate(commit), absent from the
sources (only the repository tests call it).  Abstract units are excluded,
the remaining units are sorted by dependency (a cycle aborts before any
query runs), all units execute inside one transaction, and the transaction
is committed only when commit is true and no error propagated; otherwise
every effect — saved records and ledger rows alike — is rolled back to the
initial state. -/
def migrator_migrate (env : Env) (ms : List MigrationC) (commit : Bool)
    (st : MState) : List Ev × MState × Except MigErr Unit :=
  let scheduled := ms.filter (fun m => !m.abstract)
  match sortUnits (scheduled.map unitOf) with
  | Except.error e =>
      ([], st, Except.error (MigErr.improperlyConfigured
        (match e with
         | SortErr.cycle n => String.append "dependency cycle at " n
         | SortErr.fuelOut => "dependency sort failed")))
  | Except.ok sorted =>
      let ordered := sorted.filterMap
        (fun u => scheduled.find? (fun m => m.name == u.name))
      match run_units env ordered st with
      | (evs, Except.ok st2) => (evs, (if commit then st2 else st), Except.ok ())
      | (evs, Except.error e) => (evs, st, Except.error e)

/-- Events that the per-row machinery can emit, as opposed to the per-unit
framing events (skip notice, query execution, lifecycle hooks, ledger
write). -/
def isRowEv : Ev → Bool
  | Ev.beforeTransformation _ => true
  | Ev.lookup _ _ _ => true
  | Ev.beforeSave _ _ => true
  | Ev.save _ => true
  | Ev.addM2M _ _ _ => true
  | Ev.afterSave _ _ => true
  | Ev.updateExisting _ _ => true
  | _ => false

/-- Recognizer for the ledger-write event. -/
def isCreatedEv : Ev → Bool
  | Ev.createdAppliedMigration _ => true
  | _ => false

/-- Recognizer for the many-to-many association event. -/
def isAddM2M : Ev → Bool
  | Ev.addM2M _ _ _ => true
  | _ => false

/-- Recognizer for the hook_update_existing event. -/
def isUpdateEv : Ev → Bool
  | Ev.updateExisting _ _ => true
  | _ => false

/-- Recognizer for the persistence event. -/
def isSaveEv : Ev → Bool
  | Ev.save _ => true
  | _ => false

/-- Recognizer for the point-lookup event. -/
def isLookupEv : Ev → Bool
  | Ev.lookup _ _ _ => true
  | _ => false

/-- True when some many-to-many association event occurs in the trace
before any persistence event: the violation the specification rules out
(associations are applied only after the target record was saved). -/
def m2mPrecedesSave : List Ev → Bool
  | [] => false
  | ev :: rest =>
      if isSaveEv ev then false
      else if isAddM2M ev then true
      else m2mPrecedesSave rest

/-- The names of a list of units, in order. -/
def unitNames (l : List MUnit) : List String := l.map (fun u => u.name)

/-- The dependency edge relation of a unit set: a depends on b. -/
def depEdge (all : List MUnit) (a b : String) : Prop :=
  ∃ u, u ∈ all ∧ u.name = a ∧ b ∈ u.depends_on

/-- A dependency cycle: some name reaches itself through one or more
dependency edges. -/
def hasCycle (all : List MUnit) : Prop :=
  ∃ n, Relation.TransGen (depEdge all) n n

/-- The order produced by the sorter is topological: wherever the output
splits as l1 ++ u :: l2, every dependency of u that names a unit of the
sorted set already occurs among the names of l1. -/
def depsPrecede (all : List MUnit) (l : List MUnit) : Prop :=
  ∀ l1 u l2, l = l1 ++ u :: l2 →
    ∀ d ∈ u.depends_on, (findUnit all d).isSome → d ∈ unitNames l1

/-- The in-progress (grey) stack of the depth-first visit is a dependency
chain: the bottom entry names a unit of the sorted set, and every entry
pushed on top of another is one of its declared dependencies. -/
inductive GChain (all : List MUnit) : List String → Prop
  | nil : GChain all []
  | single (n : String) (hn : ∃ u, u ∈ all ∧ u.name = n) : GChain all [n]
  | cons (c p : String) (rest : List String) (h : GChain all (p :: rest))
      (he : depEdge all p c) : GChain all (c :: p :: rest)

/-- Invariant of the sorter output under construction: names are distinct,
every emitted unit belongs to the sorted set, and the order emitted so far
is topological. -/
def SortInv (all : List MUnit) (out : List MUnit) : Prop :=
  (unitNames out).Nodup ∧ (∀ u ∈ out, u ∈ all) ∧ depsPrecede all out

/-! ### Concrete fixtures used by witnesses and counterexamples -/

/-- A single-valued (fk) descriptor on class M, attribute a, skip_missing
set. -/
def fkSkipDesc : ColumnDesc := ColumnDesc.mk false "M" true false "a" false ";" true

/-- A single-valued (fk) descriptor on class M, attribute a, skip_missing
unset. -/
def fkDesc : ColumnDesc := ColumnDesc.mk false "M" true false "a" false ";" false

/-- A many-to-many descriptor on class M, attribute a, delimiter comma,
skip_missing set. -/
def m2mSkipDesc : ColumnDesc := ColumnDesc.mk true "M" false false "a" false "," true

/-- A many-to-many descriptor on class M, attribute a, default delimiter,
skip_missing unset. -/
def m2mDesc : ColumnDesc := ColumnDesc.mk true "M" false false "a" false ";" false

/-- A source environment whose every query yields one single-column row. -/
def envOne : Env := Env.mk (fun _ => [[("a", some "1")]])

/-- A source environment whose every query yields no rows. -/
def envNil : Env := Env.mk (fun _ => [])

/-- A well-formed migration configuration named M0 targeting model M. -/
def mWell : MigrationC :=
  MigrationC.mk "M0" false (PyObj.modelClass "M") (PyObj.str "SELECT x")
    (PyObj.dict []) (PyObj.list []) false none

/-- A migration configuration whose query attribute is not a string. -/
def mBadQuery : MigrationC :=
  MigrationC.mk "M0" false (PyObj.modelClass "M") PyObj.other
    (PyObj.dict []) (PyObj.list []) false none

/-- A well-formed updatable migration configuration named M0 with
search attribute a. -/
def mUpd : MigrationC :=
  MigrationC.mk "M0" false (PyObj.modelClass "M") (PyObj.str "SELECT x")
    (PyObj.dict []) (PyObj.list []) true (some "a")

/-- The Author unit of the sorting scenario: no dependencies. -/
def authorU : MUnit := MUnit.mk "Author" []

/-- The Post unit of the sorting scenario: depends on Comment. -/
def postU : MUnit := MUnit.mk "Post" ["Comment"]

/-- The Comment unit of the sorting scenario: depends on Author. -/
def commentU : MUnit := MUnit.mk "Comment" ["Author"]

/-- A two-unit dependency cycle. -/
def cycA : MUnit := MUnit.mk "A" ["B"]

/-- A two-unit dependency cycle. -/
def cycB : MUnit := MUnit.mk "B" ["A"]

/-- A migration configuration participating in a dependency cycle. -/
def mCycA : MigrationC :=
  MigrationC.mk "A" false (PyObj.modelClass "M") (PyObj.str "SELECT x")
    (PyObj.dict []) (PyObj.list ["B"]) false none

/-- A migration configuration participating in a dependency cycle. -/
def mCycB : MigrationC :=
  MigrationC.mk "B" false (PyObj.modelClass "M") (PyObj.str "SELECT x")
    (PyObj.dict []) (PyObj.list ["A"]) false none

/-! ### Reasoning infrastructure for the Run monad -/

@[simp]
theorem run_bind_def (x : Run α) (f : α → Run β) : x >>= f = Run.bindR x f := rfl

@[simp]
theorem bindR_err (evs : List Ev) (e : MigErr) (f : α → Run β) :
    Run.bindR (evs, Except.error e) f = (evs, Except.error e) := rfl

@[simp]
theorem bindR_ok (evs : List Ev) (a : α) (f : α → Run β) :
    Run.bindR (evs, Except.ok a) f = (evs ++ (f a).1, (f a).2) := rfl

@[simp]
theorem run_pure_def (a : α) : (pure a : Run α) = ([], Except.ok a) := rfl

@[simp]
theorem emit_def (e : Ev) : emit e = ([e], Except.ok ()) := rfl

@[simp]
theorem thr_def (e : MigErr) : (thr e : Run α) = ([], Except.error e) := rfl

@[simp]
theorem ofExcept_def (x : Except MigErr α) : ofExcept x = ([], x) := rfl

/-- Events of a bound computation come from the first stage or, when it
succeeded, from the continuation. -/
theorem mem_bindR (x : Run α) (f : α → Run β) (ev : Ev)
    (h : ev ∈ (Run.bindR x f).1) :
    ev ∈ x.1 ∨ ∃ a, x.2 = Except.ok a ∧ ev ∈ (f a).1 := by
  obtain ⟨evs, r⟩ := x
  cases r with
  | error e => simp [Run.bindR] at h; exact Or.inl h
  | ok a =>
      simp [Run.bindR] at h
      rcases h with h | h
      · exact Or.inl h
      · exact Or.inr ⟨a, rfl, h⟩

/-! ### Behaviour of the row-level machinery -/

/-- Every call of get_object performs exactly one point lookup, whatever
its outcome. -/
theorem get_object_trace (mn : String) (db : List Inst) (desc : ColumnDesc)
    (v : Option String) :
    (get_object mn db desc v).1 = [Ev.lookup desc.klass desc.attr v] := by
  unfold get_object
  cases h : findInst db desc.klass desc.attr v <;> simp [h]
  split_ifs <;> simp

/-- create_m2ms associates every deferred field, in order, and never
fails. -/
theorem create_m2ms_eq (i : Inst) (l : List (String × List Inst)) :
    create_m2ms i l = (l.map (fun p => Ev.addM2M i p.1 p.2), Except.ok ()) := by
  induction l with
  | nil => rfl
  | cons p rest ih => cases p; simp [create_m2ms, ih]

/-- The token loop only ever emits point lookups. -/
theorem resolve_tokens_events (mn : String) (db : List Inst) (desc : ColumnDesc)
    (ts : List String) :
    ∀ ev ∈ (resolve_tokens mn db desc ts).1, isLookupEv ev = true := by
  induction ts with
  | nil => simp [resolve_tokens]
  | cons t rest ih =>
      intro ev hev
      unfold resolve_tokens at hev
      simp at hev
      rcases mem_bindR _ _ _ hev with h | ⟨a, ha, h⟩
      · rw [get_object_trace] at h
        simp at h
        simp [h, isLookupEv]
      · cases a with
        | none => exact ih ev h
        | some e =>
            rcases mem_bindR _ _ _ h with h2 | ⟨b, hb, h2⟩
            · exact ih ev h2
            · simp at h2

/-- With skip_missing set and the descriptor class equal to the migration
model, the token loop performs exactly one lookup per token, keeps the
found instances in order and silently drops the missing ones. -/
theorem resolve_tokens_skip (db : List Inst) (desc : ColumnDesc)
    (hskip : desc.skip_missing = true) (ts : List String) :
    resolve_tokens desc.klass db desc ts =
      (ts.map (fun t => Ev.lookup desc.klass desc.attr (some t)),
       Except.ok (ts.filterMap (fun t => findInst db desc.klass desc.attr (some t)))) := by
  induction ts with
  | nil => rfl
  | cons t rest ih =>
      unfold resolve_tokens
      cases h : findInst db desc.klass desc.attr (some t) with
      | none => simp [get_object, h, hskip, ih]
      | some i => simp [get_object, h, hskip, ih]

/-- The transformation step only ever emits point lookups. -/
theorem transform_events (mn : String) (cd : List (String × ColumnDesc))
    (db : List Inst) :
    ∀ row, ∀ ev ∈ (transform_row_dataset mn cd db row).1, isLookupEv ev = true := by
  intro row
  induction row with
  | nil => simp [transform_row_dataset]
  | cons p rest ih =>
      obtain ⟨f, data⟩ := p
      intro ev hev
      unfold transform_row_dataset at hev
      cases hcd : cd.lookup f with
      | none =>
          rw [hcd] at hev
          simp at hev
          rcases mem_bindR _ _ _ hev with h | ⟨a, ha, h⟩
          · exact ih ev h
          · simp at h
      | some desc =>
          rw [hcd] at hev
          by_cases hx : desc.exclude
          · simp [hx] at hev; exact ih ev hev
          · by_cases hfk : (desc.fk || desc.o2o : Bool)
            · simp [hx, hfk] at hev
              rcases mem_bindR _ _ _ hev with h | ⟨a, ha, h⟩
              · rw [get_object_trace] at h
                simp at h
                simp [h, isLookupEv]
              · rcases mem_bindR _ _ _ h with h2 | ⟨b, hb, h2⟩
                · exact ih ev h2
                · simp at h2
            · by_cases hm : desc.m2m
              · cases data with
                | none => simp [hx, hfk, hm] at hev; exact ih ev hev
                | some s =>
                    simp [hx, hfk, hm] at hev
                    rcases mem_bindR _ _ _ hev with h | ⟨a, ha, h⟩
                    · exact resolve_tokens_events mn db desc _ ev h
                    · rcases mem_bindR _ _ _ h with h2 | ⟨b, hb, h2⟩
                      · exact ih ev h2
                      · simp at h2
              · simp [hx, hfk, hm] at hev; exact ih ev hev

/-- Exact decomposition of the fresh-run row pipeline: transformation
first; on success the instance is built, hook_before_save fires, the
record is saved, the deferred many-to-many associations are applied and
hook_after_save fires, and the database gains exactly that record. -/
theorem process_row_eq (mn : String) (cd : List (String × ColumnDesc))
    (db : List Inst) (row : Row) :
    process_row mn cd db row =
      match transform_row_dataset mn cd db row with
      | (evs, Except.error e) => (Ev.beforeTransformation row :: evs, Except.error e)
      | (evs, Except.ok r) =>
          (Ev.beforeTransformation row :: evs ++
             (Ev.beforeSave (mk_instance mn r.1) row :: Ev.save (mk_instance mn r.1) ::
              (r.2.map (fun p => Ev.addM2M (mk_instance mn r.1) p.1 p.2)) ++
              [Ev.afterSave (mk_instance mn r.1) row]),
           Except.ok (db ++ [mk_instance mn r.1])) := by
  unfold process_row
  cases htr : transform_row_dataset mn cd db row with
  | mk evs r =>
      cases r with
      | error e => simp [htr]
      | ok r => simp [htr, create_m2ms_eq]

/-- A lookup event is a row event and is none of the other recognized
kinds. -/
theorem lookup_isRow (ev : Ev) (h : isLookupEv ev = true) :
    isRowEv ev = true ∧ isUpdateEv ev = false ∧ isAddM2M ev = false ∧ isSaveEv ev = false := by
  cases ev <;> simp_all [isLookupEv, isRowEv, isUpdateEv, isAddM2M, isSaveEv]

/-- The fresh-run row pipeline emits only row events and never invokes
hook_update_existing. -/
theorem process_row_events (mn : String) (cd : List (String × ColumnDesc))
    (db : List Inst) (row : Row) :
    ∀ ev ∈ (process_row mn cd db row).1, isRowEv ev = true ∧ isUpdateEv ev = false := by
  intro ev hev
  rw [process_row_eq] at hev
  cases htr : transform_row_dataset mn cd db row with
  | mk evs r =>
      cases r with
      | error e =>
          rw [htr] at hev
          simp at hev
          rcases hev with h | h
          · simp [h, isRowEv, isUpdateEv]
          · have := lookup_isRow ev (transform_events mn cd db row ev (by rw [htr]; exact h))
            exact ⟨this.1, this.2.1⟩
      | ok r =>
          rw [htr] at hev
          simp at hev
          rcases hev with h | h | h
          · simp [h, isRowEv, isUpdateEv]
          · have := lookup_isRow ev (transform_events mn cd db row ev (by rw [htr]; exact h))
            exact ⟨this.1, this.2.1⟩
          · rcases h with h | h | h | h
            · simp [h, isRowEv, isUpdateEv]
            · simp [h, isRowEv, isUpdateEv]
            · obtain ⟨p, hp, h⟩ := h
              simp [← h.2, isRowEv, isUpdateEv]
            · simp [h, isRowEv, isUpdateEv]

/-- The fresh-run row loop emits only row events and never invokes
hook_update_existing. -/
theorem process_rows_events (mn : String) (cd : List (String × ColumnDesc)) :
    ∀ rows db, ∀ ev ∈ (process_rows mn cd db rows).1,
      isRowEv ev = true ∧ isUpdateEv ev = false := by
  intro rows
  induction rows with
  | nil => simp [process_rows]
  | cons row rest ih =>
      intro db ev hev
      unfold process_rows at hev
      simp at hev
      rcases mem_bindR _ _ _ hev with h | ⟨a, ha, h⟩
      · exact process_row_events mn cd db row ev h
      · exact ih a ev h

/-- Update mode, existing record found: hook_update_existing is invoked
exactly once, on the found instance and the raw row, and the database is
unchanged. -/
theorem update_row_found (mn : String) (a : String) (cd : List (String × ColumnDesc))
    (db : List Inst) (row : Row) (v : Option String) (e : Inst)
    (hv : row.lookup a = some v)
    (hfound : findInst db mn a v = some e) :
    update_row mn (some a) cd db row =
      ([Ev.lookup mn a v, Ev.updateExisting e row], Except.ok db) := by
  unfold update_row
  simp [is_a, hv, get_object, hfound]

/-- Update mode, no existing record: the miss is not an error and the full
fresh-run row pipeline runs. -/
theorem update_row_missing (mn : String) (a : String) (cd : List (String × ColumnDesc))
    (db : List Inst) (row : Row) (v : Option String)
    (hv : row.lookup a = some v)
    (hmiss : findInst db mn a v = none) :
    update_row mn (some a) cd db row =
      (Ev.lookup mn a v :: (process_row mn cd db row).1,
       (process_row mn cd db row).2) := by
  unfold update_row
  simp [is_a, hv, get_object, hmiss]

/-- The update-mode row step emits only row events. -/
theorem update_row_events (mn : String) (sattr : Option String)
    (cd : List (String × ColumnDesc)) (db : List Inst) (row : Row) :
    ∀ ev ∈ (update_row mn sattr cd db row).1, isRowEv ev = true := by
  intro ev hev
  unfold update_row at hev
  cases sattr with
  | none => simp [is_a] at hev
  | some a =>
      simp [is_a] at hev
      cases hv : row.lookup a with
      | none => simp [hv] at hev
      | some v =>
          simp [hv] at hev
          rcases mem_bindR _ _ _ hev with h | ⟨b, hb, h⟩
          · rw [get_object_trace] at h
            simp at h
            simp [h, isRowEv]
          · cases b with
            | some e =>
                simp at h
                simp [h, isRowEv]
            | none => exact (process_row_events mn cd db row ev h).1

/-- The update-mode row loop emits only row events; in particular it never
fires the lifecycle hooks. -/
theorem pcu_events (mn : String) (sattr : Option String)
    (cd : List (String × ColumnDesc)) :
    ∀ rows db, ∀ ev ∈ (process_cursor_for_update mn sattr cd db rows).1,
      isRowEv ev = true := by
  intro rows
  induction rows with
  | nil => simp [process_cursor_for_update]
  | cons row rest ih =>
      intro db ev hev
      unfold process_cursor_for_update at hev
      simp at hev
      rcases mem_bindR _ _ _ hev with h | ⟨a, ha, h⟩
      · exact update_row_events mn sattr cd db row ev h
      · exact ih a ev h

/-- A successful fresh run frames its row events between one
hook_before_all and one hook_after_all. -/
theorem process_cursor_ok (mn : String) (cd : List (String × ColumnDesc))
    (db : List Inst) (rows : List Row) (evs : List Ev) (db2 : List Inst)
    (h : process_rows mn cd db rows = (evs, Except.ok db2)) :
    process_cursor mn cd db rows =
      (Ev.beforeAll :: evs ++ [Ev.afterAll], Except.ok db2) := by
  unfold process_cursor
  simp [h]

/-- A failing fresh run has fired hook_before_all but not
hook_after_all. -/
theorem process_cursor_err (mn : String) (cd : List (String × ColumnDesc))
    (db : List Inst) (rows : List Row) (evs : List Ev) (e : MigErr)
    (h : process_rows mn cd db rows = (evs, Except.error e)) :
    process_cursor mn cd db rows = (Ev.beforeAll :: evs, Except.error e) := by
  unfold process_cursor
  simp [h]

/-! ### Behaviour of migrate -/

/-- Skip mode: a ledger record with allow_updates unset makes migrate
return immediately after the notice, leaving the state untouched. -/
theorem migrate_skip_eq (env : Env) (m : MigrationC) (st : MState)
    (hl : st.ledger.contains m.name = true) (hu : m.allow_updates = false) :
    migrate env m st = ([Ev.skipNotice m.name], Except.ok st) := by
  have hmem : m.name ∈ st.ledger := by simpa using hl
  have hreq : migration_required m st.ledger = some false := by
    simp [migration_required, hmem, hu]
  unfold migrate
  rw [if_pos hreq]
  simp

/-- A non-skipped migration whose configuration check fails raises before
emitting any event. -/
theorem migrate_invalid (env : Env) (m : MigrationC) (st : MState) (msg : String)
    (hns : migration_required m st.ledger ≠ some false)
    (hc : check_migration m = Except.error (MigErr.improperlyConfigured msg)) :
    migrate env m st = ([], Except.error (MigErr.improperlyConfigured msg)) := by
  unfold migrate
  rw [if_neg hns]
  simp [hc]

/-- Every malformed configuration in the taxonomy of check_migration makes
the check raise ImproperlyConfigured. -/
theorem check_error_of_malformed (m : MigrationC)
    (hmal : (¬∃ d, m.column_description = PyObj.dict d) ∨
            (m.allow_updates = true ∧ m.search_attr = none) ∨
            (¬∃ l, m.depends_on = PyObj.list l) ∨
            (¬∃ n, m.model = PyObj.modelClass n) ∨
            (¬∃ q, m.query = PyObj.str q ∧ strContains q "SELECT" = true)) :
    ∃ msg, check_migration m = Except.error (MigErr.improperlyConfigured msg) := by
  unfold check_migration
  cases hcol : m.column_description with
  | dict d =>
      by_cases hau : (m.allow_updates && m.search_attr.isNone : Bool)
      · simp [hau]
      · simp only [hau, if_neg]
        cases hdep : m.depends_on with
        | list l =>
            cases hmod : m.model with
            | modelClass n =>
                cases hq : m.query with
                | str q =>
                    by_cases hsel : strContains q "SELECT" = true
                    · exfalso
                      rcases hmal with h | h | h | h | h
                      · exact h ⟨d, hcol⟩
                      · rw [h.1, h.2] at hau; simp at hau
                      · exact h ⟨l, hdep⟩
                      · exact h ⟨n, hmod⟩
                      · exact h ⟨q, hq, hsel⟩
                    · simp [hsel]
                | list l2 => simp
                | dict d2 => simp
                | modelClass n2 => simp
                | other => simp
            | str s => simp
            | list l2 => simp
            | dict d2 => simp
            | other => simp
        | str s => simp
        | dict d2 => simp
        | modelClass n2 => simp
        | other => simp
  | str s => simp
  | list l => simp
  | modelClass n => simp
  | other => simp

/-- A successful run of a unit with no ledger record takes the fresh-run
path: the source query is executed once, the row events are framed by the
two lifecycle hooks, and exactly one AppliedMigration row for the unit is
appended to the ledger at the very end. -/
theorem migrate_fresh_ok (env : Env) (m : MigrationC) (st : MState)
    (evs : List Ev) (st2 : MState)
    (hni : st.ledger.contains m.name = false)
    (h : migrate env m st = (evs, Except.ok st2)) :
    ∃ q mid db2,
      evs = Ev.executeQuery q :: Ev.beforeAll :: mid ++
        [Ev.afterAll, Ev.createdAppliedMigration m.name] ∧
      st2 = MState.mk db2 (st.ledger ++ [m.name]) ∧
      (∀ ev ∈ mid, isRowEv ev = true ∧ isUpdateEv ev = false) := by
  have hnm : m.name ∉ st.ledger := by simpa using hni
  have hreq : migration_required m st.ledger = some true := by
    simp [migration_required, hnm]
  unfold migrate at h
  rw [if_neg (by simp [hreq])] at h
  cases hc : check_migration m with
  | error e => rw [hc] at h; simp at h
  | ok u =>
      cases hq : m.query with
      | str q =>
          cases hm : m.model with
          | modelClass mn =>
              cases hcol : m.column_description with
              | dict cd =>
                  rw [hc] at h
                  simp [getQueryStr, hq, getModelName, hm, getColumns, hcol, hreq] at h
                  cases hpr : process_rows mn cd st.db (env.runQuery q) with
                  | mk pevs pr =>
                      cases pr with
                      | error e =>
                          rw [process_cursor_err mn cd st.db _ pevs e hpr] at h
                          simp at h
                      | ok db2 =>
                          rw [process_cursor_ok mn cd st.db _ pevs db2 hpr] at h
                          simp at h
                          refine ⟨q, pevs, db2, ?_, ?_, ?_⟩
                          · rw [← h.1]; simp
                          · rw [← h.2]
                          · intro ev hev
                            have h2 : ev ∈ (process_rows mn cd st.db (env.runQuery q)).1 := by
                              rw [hpr]; exact hev
                            exact process_rows_events mn cd (env.runQuery q) st.db ev h2
              | str s => rw [hc] at h; simp [getQueryStr, hq, getModelName, hm, getColumns, hcol] at h
              | list l => rw [hc] at h; simp [getQueryStr, hq, getModelName, hm, getColumns, hcol] at h
              | modelClass n => rw [hc] at h; simp [getQueryStr, hq, getModelName, hm, getColumns, hcol] at h
              | other => rw [hc] at h; simp [getQueryStr, hq, getModelName, hm, getColumns, hcol] at h
          | str s => rw [hc] at h; simp [getQueryStr, hq, getModelName, hm] at h
          | list l => rw [hc] at h; simp [getQueryStr, hq, getModelName, hm] at h
          | dict d => rw [hc] at h; simp [getQueryStr, hq, getModelName, hm] at h
          | other => rw [hc] at h; simp [getQueryStr, hq, getModelName, hm] at h
      | list l => rw [hc] at h; simp [getQueryStr, hq] at h
      | dict d => rw [hc] at h; simp [getQueryStr, hq] at h
      | modelClass n => rw [hc] at h; simp [getQueryStr, hq] at h
      | other => rw [hc] at h; simp [getQueryStr, hq] at h

/-- An update-mode run (ledger record present, allow_updates set) emits
only the query execution and row events — no lifecycle hooks and no
ledger write — and a successful one leaves the ledger unchanged. -/
theorem migrate_update_char (env : Env) (m : MigrationC) (st : MState)
    (hl : st.ledger.contains m.name = true) (hu : m.allow_updates = true) :
    (∀ ev ∈ (migrate env m st).1, isRowEv ev = true ∨ ∃ q, ev = Ev.executeQuery q)
    ∧ (∀ st2, (migrate env m st).2 = Except.ok st2 → st2.ledger = st.ledger) := by
  have hmem : m.name ∈ st.ledger := by simpa using hl
  have hreq : migration_required m st.ledger = none := by
    simp [migration_required, hmem, hu]
  unfold migrate
  rw [if_neg (by simp [hreq])]
  cases hc : check_migration m with
  | error e => simp
  | ok u =>
      cases hq : m.query with
      | str q =>
          cases hm : m.model with
          | modelClass mn =>
              cases hcol : m.column_description with
              | dict cd =>
                  simp [hc, getQueryStr, hq, getModelName, hm, getColumns, hcol, hreq]
                  constructor
                  · intro ev hev
                    rcases mem_bindR _ _ _ hev with h2 | ⟨a, ha, h2⟩
                    · exact Or.inl (pcu_events mn m.search_attr cd (env.runQuery q) st.db ev h2)
                    · simp at h2
                  · intro st2 h
                    cases hpcu : process_cursor_for_update mn m.search_attr cd st.db (env.runQuery q) with
                    | mk pevs pr =>
                        rw [hpcu] at h
                        cases pr with
                        | error e => simp at h
                        | ok db2 => simp at h; rw [← h]
              | str s => simp [hc, getQueryStr, hq, getModelName, hm, getColumns, hcol]
              | list l => simp [hc, getQueryStr, hq, getModelName, hm, getColumns, hcol]
              | modelClass n2 => simp [hc, getQueryStr, hq, getModelName, hm, getColumns, hcol]
              | other => simp [hc, getQueryStr, hq, getModelName, hm, getColumns, hcol]
          | str s => simp [hc, getQueryStr, hq, getModelName, hm]
          | list l => simp [hc, getQueryStr, hq, getModelName, hm]
          | dict d => simp [hc, getQueryStr, hq, getModelName, hm]
          | other => simp [hc, getQueryStr, hq, getModelName, hm]
      | list l => simp [hc, getQueryStr, hq]
      | dict d => simp [hc, getQueryStr, hq]
      | modelClass n => simp [hc, getQueryStr, hq]
      | other => simp [hc, getQueryStr, hq]

/-- Scanning prefix events that are neither saves nor associations does not
change whether an association precedes the first save. -/
theorem mps_append (l1 l2 : List Ev)
    (h : ∀ ev ∈ l1, isAddM2M ev = false ∧ isSaveEv ev = false) :
    m2mPrecedesSave (l1 ++ l2) = m2mPrecedesSave l2 := by
  induction l1 with
  | nil => rfl
  | cons ev rest ih =>
      have h0 := h ev (by simp)
      simp [m2mPrecedesSave, h0.1, h0.2]
      exact ih (fun e he => h e (by simp [he]))

/-- A trace without association events never places an association before a
save. -/
theorem mps_no_m2m (l : List Ev) (h : ∀ ev ∈ l, isAddM2M ev = false) :
    m2mPrecedesSave l = false := by
  induction l with
  | nil => rfl
  | cons ev rest ih =>
      by_cases hs : isSaveEv ev
      · simp [m2mPrecedesSave, hs]
      · simp [m2mPrecedesSave, hs, h ev (by simp)]
        exact ih (fun e he => h e (by simp [he]))

/-- In the row pipeline no many-to-many association is ever applied before
the record is persisted. -/
theorem mps_process_row (mn : String) (cd : List (String × ColumnDesc))
    (db : List Inst) (row : Row) :
    m2mPrecedesSave (process_row mn cd db row).1 = false := by
  rw [process_row_eq]
  cases htr : transform_row_dataset mn cd db row with
  | mk evs r =>
      have hlk : ∀ ev ∈ evs, isAddM2M ev = false ∧ isSaveEv ev = false := by
        intro ev hev
        have := lookup_isRow ev (transform_events mn cd db row ev (by rw [htr]; exact hev))
        exact ⟨this.2.2.1, this.2.2.2⟩
      cases r with
      | error e =>
          simp only
          have : m2mPrecedesSave (Ev.beforeTransformation row :: evs) =
              m2mPrecedesSave ([Ev.beforeTransformation row] ++ evs ++ []) := by simp
          rw [this, mps_append]
          · rfl
          · intro ev hev
            simp at hev
            rcases hev with h | h
            · simp [h, isAddM2M, isSaveEv]
            · exact hlk ev h
      | ok r =>
          simp only
          have heq : Ev.beforeTransformation row :: evs ++
              (Ev.beforeSave (mk_instance mn r.1) row :: Ev.save (mk_instance mn r.1) ::
               (r.2.map (fun p => Ev.addM2M (mk_instance mn r.1) p.1 p.2)) ++
               [Ev.afterSave (mk_instance mn r.1) row]) =
              (Ev.beforeTransformation row :: evs ++ [Ev.beforeSave (mk_instance mn r.1) row]) ++
              (Ev.save (mk_instance mn r.1) ::
               ((r.2.map (fun p => Ev.addM2M (mk_instance mn r.1) p.1 p.2)) ++
                [Ev.afterSave (mk_instance mn r.1) row])) := by simp
          rw [heq, mps_append]
          · simp [m2mPrecedesSave, isSaveEv]
          · intro ev hev
            simp at hev
            rcases hev with h | h | h
            · simp [h, isAddM2M, isSaveEv]
            · exact hlk ev h
            · simp [h, isAddM2M, isSaveEv]

/-- A row event is never the ledger-write event. -/
theorem rowEv_not_created (ev : Ev) (h : isRowEv ev = true) : isCreatedEv ev = false := by
  cases ev <;> simp_all [isRowEv, isCreatedEv]


/-- The empty output is trivially topological. -/
theorem depsPrecede_nil (all : List MUnit) : depsPrecede all [] := by
  intro l1 w l2 heq
  exact absurd heq (by simp)

/-- Appending a unit whose resolvable dependencies already appear keeps
the output topological. -/
theorem depsPrecede_append (all : List MUnit) (l : List MUnit) (u : MUnit)
    (h : depsPrecede all l)
    (hd : ∀ d ∈ u.depends_on, (findUnit all d).isSome → d ∈ unitNames l) :
    depsPrecede all (l ++ [u]) := by
  intro l1 w l2 heq
  rcases List.append_eq_append_iff.mp heq with ⟨a2, ha1, ha2⟩ | ⟨c2, hc1, hc2⟩
  · cases a2 with
    | nil =>
        simp at ha2
        simp at ha1
        rw [ha1]
        rw [← ha2.1]
        exact hd
    | cons x xs =>
        rw [List.cons_append] at ha2
        injection ha2 with h1 h2
        exact absurd h2.symm (by simp)
  · cases c2 with
    | nil =>
        simp at hc1 hc2
        rw [← hc1]
        rw [hc2.1]
        exact hd
    | cons x xs =>
        injection hc2 with h1 h2
        have hx : w = x := h1
        have hl : l = l1 ++ w :: xs := by
          rw [hc1, hx]
        exact h l1 w xs hl

/-- Every member of a grey chain reaches the top of the stack through
dependency edges (or is the top itself). -/
theorem gchain_reach (all : List MUnit) :
    ∀ grey, GChain all grey → ∀ n ∈ grey, ∀ hd, grey.head? = some hd →
      (n = hd ∨ Relation.TransGen (depEdge all) n hd) := by
  intro grey hch
  induction hch with
  | nil => intro n hn; simp at hn
  | single n0 hn0 =>
      intro n hn hd hhd
      simp at hn hhd
      subst hhd
      exact Or.inl hn
  | cons c p rest hch he ih =>
      intro n hn hd hhd
      simp at hhd
      subst hhd
      rcases List.mem_cons.mp hn with h | h
      · exact Or.inl h
      · rcases ih n h p rfl with h2 | h2
        · rw [h2]
          exact Or.inr (Relation.TransGen.single he)
        · exact Or.inr (Relation.TransGen.tail h2 he)

/-- Hitting a grey unit from a visit whose parent chain is the grey stack
closes a genuine dependency cycle through that unit. -/
theorem gchain_cycle (all : List MUnit) (grey : List String) (nm : String)
    (hch : GChain all grey)
    (hhd : ∀ hd, grey.head? = some hd → depEdge all hd nm)
    (hmem : nm ∈ grey) : Relation.TransGen (depEdge all) nm nm := by
  cases grey with
  | nil => simp at hmem
  | cons g rest =>
      have hedge : depEdge all g nm := hhd g rfl
      rcases gchain_reach all (g :: rest) hch nm hmem g rfl with h | h
      · rw [h]
        rw [h] at hedge
        exact Relation.TransGen.single hedge
      · exact Relation.TransGen.tail h hedge

/-- A found unit belongs to the sorted set and carries the looked-up
name. -/
theorem findUnit_mem (all : List MUnit) (d : String) (du : MUnit)
    (h : findUnit all d = some du) : du ∈ all ∧ du.name = d := by
  unfold findUnit at h
  refine ⟨List.mem_of_find?_eq_some h, ?_⟩
  have := List.find?_some h
  simpa using this

/-- Names distribute over list append. -/
theorem unitNames_append (l1 l2 : List MUnit) :
    unitNames (l1 ++ l2) = unitNames l1 ++ unitNames l2 := by
  simp [unitNames]

/-- Combined invariant of the dependency loop, parametric in the visitor:
a successful walk extends the output with units whose names avoid the grey
stack, preserves the sorter invariant, and puts every resolvable
dependency into the output; a cycle error names a unit of a real cycle;
fuel exhaustion propagates the visitor bound. -/
theorem visitDeps_mega (all : List MUnit) (P : Prop)
    (vf : List String → List MUnit → MUnit → Except SortErr (List MUnit))
    (grey : List String)
    (hvf : ∀ out u, u ∈ all →
      (∀ hd, grey.head? = some hd → depEdge all hd u.name) → SortInv all out →
      ((∀ out2, vf grey out u = Except.ok out2 →
          (∃ ext, out2 = out ++ ext ∧ ∀ w ∈ ext, w.name ∉ grey) ∧
          SortInv all out2 ∧ u.name ∈ unitNames out2)
       ∧ (∀ n, vf grey out u = Except.error (SortErr.cycle n) →
           Relation.TransGen (depEdge all) n n)
       ∧ (vf grey out u = Except.error SortErr.fuelOut → P))) :
    ∀ ds out, (∀ d ∈ ds, ∀ hd, grey.head? = some hd → depEdge all hd d) →
      SortInv all out →
      ((∀ out2, visitDeps all vf grey out ds = Except.ok out2 →
          (∃ ext, out2 = out ++ ext ∧ ∀ w ∈ ext, w.name ∉ grey) ∧
          SortInv all out2 ∧
          (∀ d ∈ ds, (findUnit all d).isSome → d ∈ unitNames out2))
       ∧ (∀ n, visitDeps all vf grey out ds = Except.error (SortErr.cycle n) →
           Relation.TransGen (depEdge all) n n)
       ∧ (visitDeps all vf grey out ds = Except.error SortErr.fuelOut → P)) := by
  intro ds
  induction ds with
  | nil =>
      intro out hds hinv
      refine ⟨?_, ?_, ?_⟩
      · intro out2 h
        simp [visitDeps] at h
        refine ⟨⟨[], by simp [← h], by simp⟩, by rw [← h]; exact hinv, by simp⟩
      · intro n h
        simp [visitDeps] at h
      · intro h
        simp [visitDeps] at h
  | cons d rest ih =>
      intro out hds hinv
      have hdhead : ∀ hd, grey.head? = some hd → depEdge all hd d :=
        fun hd hh => hds d (by simp) hd hh
      have hrest : ∀ x ∈ rest, ∀ hd, grey.head? = some hd → depEdge all hd x :=
        fun x hx hd hh => hds x (by simp [hx]) hd hh
      cases hfu : findUnit all d with
      | none =>
          have heq : visitDeps all vf grey out (d :: rest) = visitDeps all vf grey out rest := by
            simp only [visitDeps, hfu]
          rw [heq]
          obtain ⟨ihok, ihcyc, ihfuel⟩ := ih out hrest hinv
          refine ⟨?_, ihcyc, ihfuel⟩
          intro out2 h
          obtain ⟨hext, hinv2, hmem⟩ := ihok out2 h
          refine ⟨hext, hinv2, ?_⟩
          intro x hx hsome
          rcases List.mem_cons.mp hx with h2 | h2
          · rw [h2] at hsome
            rw [hfu] at hsome
            simp at hsome
          · exact hmem x h2 hsome
      | some du =>
          obtain ⟨hdu_mem, hdu_name⟩ := findUnit_mem all d du hfu
          have hvfdu := hvf out du hdu_mem (by rw [hdu_name]; exact hdhead) hinv
          cases hv : vf grey out du with
          | error e =>
              have heq : visitDeps all vf grey out (d :: rest) = Except.error e := by
                simp only [visitDeps, hfu, hv]
              rw [heq]
              refine ⟨?_, ?_, ?_⟩
              · intro out2 h; simp at h
              · intro n h
                simp at h
                exact hvfdu.2.1 n (by rw [hv, h])
              · intro h
                simp at h
                exact hvfdu.2.2 (by rw [hv, h])
          | ok outMid =>
              have heq : visitDeps all vf grey out (d :: rest) =
                  visitDeps all vf grey outMid rest := by
                simp only [visitDeps, hfu, hv]
              rw [heq]
              obtain ⟨⟨ext1, hext1, hgrey1⟩, hinvMid, hnameMid⟩ := hvfdu.1 outMid hv
              obtain ⟨ihok, ihcyc, ihfuel⟩ := ih outMid hrest hinvMid
              refine ⟨?_, ihcyc, ihfuel⟩
              intro out2 h
              obtain ⟨⟨ext2, hext2, hgrey2⟩, hinv2, hmem⟩ := ihok out2 h
              refine ⟨⟨ext1 ++ ext2, ?_, ?_⟩, hinv2, ?_⟩
              · rw [hext2, hext1, List.append_assoc]
              · intro w hw
                rcases List.mem_append.mp hw with h2 | h2
                · exact hgrey1 w h2
                · exact hgrey2 w h2
              · intro x hx hsome
                rcases List.mem_cons.mp hx with h2 | h2
                · rw [hext2, unitNames_append]
                  apply List.mem_append_left
                  rw [h2, ← hdu_name] at hsome ⊢
                  exact hnameMid
                · exact hmem x h2 hsome

/-- Combined invariant of the depth-first visit, by induction on fuel: a
successful visit extends the output (new names avoiding the grey stack)
while preserving the sorter invariant and emitting the visited unit; a
cycle error names a unit of a real dependency cycle; and fuel can run out
only when fuel plus the grey depth does not exceed the unit count. -/
theorem visit_mega (all : List MUnit) :
    ∀ fuel grey (out : List MUnit) (u : MUnit), u ∈ all →
      grey.Nodup → (∀ g ∈ grey, g ∈ unitNames all) → GChain all grey →
      (∀ hd, grey.head? = some hd → depEdge all hd u.name) → SortInv all out →
      ((∀ out2, visit all fuel grey out u = Except.ok out2 →
          (∃ ext, out2 = out ++ ext ∧ ∀ w ∈ ext, w.name ∉ grey) ∧
          SortInv all out2 ∧ u.name ∈ unitNames out2)
       ∧ (∀ n, visit all fuel grey out u = Except.error (SortErr.cycle n) →
           Relation.TransGen (depEdge all) n n)
       ∧ (visit all fuel grey out u = Except.error SortErr.fuelOut →
           fuel + grey.length ≤ all.length)) := by
  intro fuel
  induction fuel with
  | zero =>
      intro grey out u hu hgn hgs hch hhd hinv
      refine ⟨?_, ?_, ?_⟩
      · intro out2 h; simp [visit] at h
      · intro n h; simp [visit] at h
      · intro h
        have hsub : grey ⊆ unitNames all := fun g hg => hgs g hg
        have := (hgn.subperm hsub).length_le
        simpa [unitNames] using this
  | succ f ihf =>
      intro grey out u hu hgn hgs hch hhd hinv
      by_cases hany : (out.any (fun w => w.name == u.name) : Bool)
      · have heq : visit all (Nat.succ f) grey out u = Except.ok out := by
          simp only [visit, hany, if_pos]
        rw [heq]
        refine ⟨?_, ?_, ?_⟩
        · intro out2 h
          simp at h
          subst h
          refine ⟨⟨[], by simp, by simp⟩, hinv, ?_⟩
          simp at hany
          obtain ⟨w, hw, hwn⟩ := hany
          simp [unitNames]
          exact ⟨w, hw, hwn⟩
        · intro n h; simp at h
        · intro h; simp at h
      · by_cases hcont : (grey.contains u.name : Bool)
        · have heq : visit all (Nat.succ f) grey out u =
              Except.error (SortErr.cycle u.name) := by
            simp only [visit]
            rw [if_neg (by simpa using hany), if_pos (by simpa using hcont)]
          rw [heq]
          refine ⟨?_, ?_, ?_⟩
          · intro out2 h; simp at h
          · intro n h
            simp at h
            subst h
            exact gchain_cycle all grey u.name hch hhd (by simpa using hcont)
          · intro h; simp at h
        · have hnotg : u.name ∉ grey := by simpa using hcont
          have hgn2 : (u.name :: grey).Nodup := List.nodup_cons.mpr ⟨hnotg, hgn⟩
          have hgs2 : ∀ g ∈ u.name :: grey, g ∈ unitNames all := by
            intro g hg
            rcases List.mem_cons.mp hg with h | h
            · rw [h]; simp [unitNames]; exact ⟨u, hu, rfl⟩
            · exact hgs g h
          have hch2 : GChain all (u.name :: grey) := by
            cases grey with
            | nil => exact GChain.single u.name ⟨u, hu, rfl⟩
            | cons g rest => exact GChain.cons u.name g rest hch (hhd g rfl)
          have hds2 : ∀ d ∈ u.depends_on, ∀ hd, (u.name :: grey).head? = some hd →
              depEdge all hd d := by
            intro d hd hd2 hh
            simp at hh
            subst hh
            exact ⟨u, hu, rfl, hd⟩
          have hmega := visitDeps_mega all (f + (u.name :: grey).length ≤ all.length)
            (visit all f) (u.name :: grey)
            (fun out3 u3 hu3 hhd3 hinv3 => ihf (u.name :: grey) out3 u3 hu3 hgn2 hgs2 hch2 hhd3 hinv3)
            u.depends_on out hds2 hinv
          cases hvd : visitDeps all (visit all f) (u.name :: grey) out u.depends_on with
          | error e =>
              have heq : visit all (Nat.succ f) grey out u = Except.error e := by
                simp only [visit]
                rw [if_neg (by simpa using hany), if_neg (by simpa using hcont), hvd]
              rw [heq]
              refine ⟨?_, ?_, ?_⟩
              · intro out2 h; simp at h
              · intro n h
                simp at h
                subst h
                exact hmega.2.1 n hvd
              · intro h
                simp at h
                subst h
                have := hmega.2.2 hvd
                simp at this
                omega
          | ok out2 =>
              have heq : visit all (Nat.succ f) grey out u =
                  Except.ok (out2 ++ [u]) := by
                simp only [visit]
                rw [if_neg (by simpa using hany), if_neg (by simpa using hcont), hvd]
              rw [heq]
              obtain ⟨⟨ext2, hext2, hgrey2⟩, hinv2, hdmem⟩ := hmega.1 out2 hvd
              have hnotout : u.name ∉ unitNames out := by
                simp at hany
                simp [unitNames]
                intro w hw
                exact fun hwn => hany w hw hwn
              have hnotext : u.name ∉ unitNames ext2 := by
                simp [unitNames]
                intro w hw hwn
                exact (hgrey2 w hw) (by rw [hwn]; simp)
              have hnotout2 : u.name ∉ unitNames out2 := by
                rw [hext2, unitNames_append]
                simp
                exact ⟨by simpa [unitNames] using hnotout, by simpa [unitNames] using hnotext⟩
              refine ⟨?_, ?_, ?_⟩
              · intro out3 h
                simp at h
                subst h
                refine ⟨⟨ext2 ++ [u], by rw [hext2, List.append_assoc], ?_⟩, ?_, ?_⟩
                · intro w hw
                  rcases List.mem_append.mp hw with h2 | h2
                  · intro hwg
                    exact (hgrey2 w h2) (by simp [hwg])
                  · simp at h2
                    subst h2
                    exact hnotg
                · refine ⟨?_, ?_, ?_⟩
                  · rw [unitNames_append]
                    rw [List.nodup_append]
                    refine ⟨hinv2.1, by simp [unitNames], ?_⟩
                    intro a ha
                    simp [unitNames]
                    intro hau
                    rw [hau] at ha
                    exact hnotout2 ha
                  · intro w hw
                    rcases List.mem_append.mp hw with h2 | h2
                    · exact hinv2.2.1 w h2
                    · simp at h2; subst h2; exact hu
                  · exact depsPrecede_append all out2 u hinv2.2.2 hdmem
                · rw [unitNames_append]
                  simp [unitNames]
              · intro n h; simp at h
              · intro h; simp at h

/-- Combined invariant of the outer sorting loop: success yields a
topological extension containing every pending unit, a cycle error names a
unit of a real cycle, and fuel exhaustion is impossible at the fuel the
sorter supplies. -/
theorem sortGo_mega (all : List MUnit) :
    ∀ pend (out : List MUnit), (∀ u ∈ pend, u ∈ all) → SortInv all out →
      ((∀ l, sortGo all pend out = Except.ok l →
          SortInv all l ∧ (∃ ext, l = out ++ ext) ∧
          ∀ u ∈ pend, u.name ∈ unitNames l)
       ∧ (∀ n, sortGo all pend out = Except.error (SortErr.cycle n) →
           Relation.TransGen (depEdge all) n n)
       ∧ (sortGo all pend out = Except.error SortErr.fuelOut → False)) := by
  intro pend
  induction pend with
  | nil =>
      intro out hp hinv
      refine ⟨?_, ?_, ?_⟩
      · intro l h
        simp [sortGo] at h
        subst h
        exact ⟨hinv, ⟨[], by simp⟩, by simp⟩
      · intro n h; simp [sortGo] at h
      · intro h; simp [sortGo] at h
  | cons u rest ih =>
      intro out hp hinv
      have hu : u ∈ all := hp u (by simp)
      have hmega := visit_mega all (all.length + 1) [] out u hu (by simp)
        (by simp) GChain.nil (by simp) hinv
      cases hv : visit all (all.length + 1) [] out u with
      | error e =>
          have heq : sortGo all (u :: rest) out = Except.error e := by
            simp only [sortGo, hv]
          rw [heq]
          refine ⟨?_, ?_, ?_⟩
          · intro l h; simp at h
          · intro n h
            simp at h
            subst h
            exact hmega.2.1 n hv
          · intro h
            simp at h
            subst h
            have := hmega.2.2 hv
            simp at this
      | ok out2 =>
          have heq : sortGo all (u :: rest) out = sortGo all rest out2 := by
            simp only [sortGo, hv]
          rw [heq]
          obtain ⟨⟨ext1, hext1, _⟩, hinv2, hname2⟩ := hmega.1 out2 hv
          have hprest : ∀ w ∈ rest, w ∈ all := fun w hw => hp w (by simp [hw])
          obtain ⟨ihok, ihcyc, ihfuel⟩ := ih out2 hprest hinv2
          refine ⟨?_, ihcyc, ihfuel⟩
          intro l h
          obtain ⟨hinvl, ⟨ext2, hext2⟩, hmeml⟩ := ihok l h
          refine ⟨hinvl, ⟨ext1 ++ ext2, by rw [hext2, hext1, List.append_assoc]⟩, ?_⟩
          intro w hw
          rcases List.mem_cons.mp hw with h2 | h2
          · subst h2
            rw [hext2, unitNames_append]
            exact List.mem_append_left _ hname2
          · exact hmeml w h2

/-- A name carried by some unit of the set resolves. -/
theorem findUnit_isSome (all : List MUnit) (d : String)
    (h : ∃ w, w ∈ all ∧ w.name = d) : (findUnit all d).isSome := by
  obtain ⟨w, hw, hwd⟩ := h
  unfold findUnit
  cases hfind : all.find? (fun u => u.name == d) with
  | some x => simp
  | none =>
      have := List.find?_eq_none.mp hfind w hw
      simp [hwd] at this

/-- In a complete topological output, a dependency edge strictly decreases
the position index. -/
theorem edge_idx (all l : List MUnit)
    (hcompl : ∀ u ∈ all, u ∈ l) (hnl : (unitNames l).Nodup)
    (hdp : depsPrecede all l) :
    ∀ a b, depEdge all a b → (∃ w, w ∈ all ∧ w.name = b) →
      (unitNames l).indexOf b < (unitNames l).indexOf a := by
  rintro a b ⟨u, hu, rfl, hdep⟩ hbw
  have hul : u ∈ l := hcompl u hu
  obtain ⟨s, t, hst⟩ := List.append_of_mem hul
  have hbmem : b ∈ unitNames s := hdp s u t hst b hdep (findUnit_isSome all b hbw)
  have hnames : unitNames l = unitNames s ++ u.name :: unitNames t := by
    rw [hst]; simp [unitNames]
  rw [hnames] at hnl ⊢
  have hnotin : u.name ∉ unitNames s := by
    rw [List.nodup_middle] at hnl
    have h2 := (List.nodup_cons.mp hnl).1
    intro hmem
    exact h2 (List.mem_append_left _ hmem)
  rw [List.indexOf_append_of_mem hbmem, List.indexOf_append_of_not_mem hnotin,
    List.indexOf_cons_self]
  have := List.indexOf_lt_length.mpr hbmem
  omega

/-- The source of a dependency path is a unit of the set. -/
theorem transGen_src (all : List MUnit) (a b : String)
    (h : Relation.TransGen (depEdge all) a b) : ∃ w, w ∈ all ∧ w.name = a := by
  induction h with
  | single e => obtain ⟨u, hu, hn, _⟩ := e; exact ⟨u, hu, hn⟩
  | tail h2 e ih => exact ih

/-- Positions strictly decrease along any dependency path ending in a unit
of the set. -/
theorem transGen_idx (all l : List MUnit)
    (hcompl : ∀ u ∈ all, u ∈ l) (hnl : (unitNames l).Nodup)
    (hdp : depsPrecede all l) :
    ∀ a b, Relation.TransGen (depEdge all) a b → (∃ w, w ∈ all ∧ w.name = b) →
      (unitNames l).indexOf b < (unitNames l).indexOf a := by
  intro a b h
  induction h with
  | single e => intro hbw; exact edge_idx all l hcompl hnl hdp _ _ e hbw
  | tail h2 e ih =>
      intro hcw
      rename_i b2 c
      have hbw : ∃ w, w ∈ all ∧ w.name = b2 := by
        obtain ⟨u, hu, hn, _⟩ := e
        exact ⟨u, hu, hn⟩
      exact lt_trans (edge_idx all l hcompl hnl hdp _ _ e hcw) (ih hbw)

/-- A complete topological output rules out dependency cycles. -/
theorem sorted_no_cycle (all l : List MUnit)
    (hcompl : ∀ u ∈ all, u ∈ l) (hnl : (unitNames l).Nodup)
    (hdp : depsPrecede all l) : ¬ hasCycle all := by
  rintro ⟨n, hcyc⟩
  have hn : ∃ w, w ∈ all ∧ w.name = n := transGen_src all n n hcyc
  exact lt_irrefl _ (transGen_idx all l hcompl hnl hdp n n hcyc hn)

/-! ### The claims -/

/-- C1: the run-mode decision is a three-way function of the idempotency
ledger, taken before the query executes.  No ledger record: the unit runs
fresh and a successful run appends exactly one AppliedMigration row (the
single ledger-write event closes the trace).  Record present and
allow_updates unset: the unit is skipped outright — the only event is the
skip notice, so the source query is never executed and no second row is
created.  Record present and allow_updates set: the unit runs in update
mode and a successful run leaves the ledger unchanged, with no
ledger-write event anywhere in the trace. -/
theorem claim_C1_run_mode_three_way (env : Env) (m : MigrationC) (st : MState) :
    (st.ledger.contains m.name = false →
      ∀ evs st2, migrate env m st = (evs, Except.ok st2) →
        st2.ledger = st.ledger ++ [m.name] ∧
        ∃ pre, evs = pre ++ [Ev.createdAppliedMigration m.name] ∧
          ∀ ev ∈ pre, isCreatedEv ev = false)
    ∧ (st.ledger.contains m.name = true → m.allow_updates = false →
        migrate env m st = ([Ev.skipNotice m.name], Except.ok st))
    ∧ (st.ledger.contains m.name = true → m.allow_updates = true →
        ∀ evs st2, migrate env m st = (evs, Except.ok st2) →
          st2.ledger = st.ledger ∧ ∀ ev ∈ evs, isCreatedEv ev = false) := by
  refine ⟨?_, ?_, ?_⟩
  · intro hni evs st2 h
    obtain ⟨q, mid, db2, he, hst, hmid⟩ := migrate_fresh_ok env m st evs st2 hni h
    constructor
    · rw [hst]
    · refine ⟨Ev.executeQuery q :: Ev.beforeAll :: mid ++ [Ev.afterAll], ?_, ?_⟩
      · rw [he]; simp
      · intro ev hev
        simp at hev
        rcases hev with h1 | h1 | h1 | h1
        · simp [h1, isCreatedEv]
        · simp [h1, isCreatedEv]
        · exact rowEv_not_created ev (hmid ev h1).1
        · simp [h1, isCreatedEv]
  · intro hl hu
    exact migrate_skip_eq env m st hl hu
  · intro hl hu evs st2 h
    have hchar := migrate_update_char env m st hl hu
    constructor
    · exact hchar.2 st2 (by rw [h])
    · intro ev hev
      have hev2 : ev ∈ (migrate env m st).1 := by rw [h]; exact hev
      rcases hchar.1 ev hev2 with h1 | ⟨q, h1⟩
      · exact rowEv_not_created ev h1
      · simp [h1, isCreatedEv]

/-- C2 (corrected): single-valued resolution of a missing related record.
With skip_missing set AND the descriptor class equal to the migration
model (only then does the except clause of get_object catch the raised
DoesNotExist), the row is transformed without error but the field is put
into the constructor data with a null reference — present, not absent.
With skip_missing unset, or with a descriptor class different from the
migration model, the DoesNotExist error propagates and aborts the row. -/
theorem claim_C2_skip_missing_resolution (mn : String) (db : List Inst)
    (desc : ColumnDesc) (f : String) (v : Option String)
    (cd : List (String × ColumnDesc)) (rest : Row)
    (hx : desc.exclude = false) (hfk : desc.fk = true ∨ desc.o2o = true)
    (hcd : cd.lookup f = some desc)
    (hmiss : findInst db desc.klass desc.attr v = none) :
    (desc.skip_missing = true → desc.klass = mn →
      ∀ evs r, transform_row_dataset mn cd db rest = (evs, Except.ok r) →
        transform_row_dataset mn cd db ((f, v) :: rest) =
          (Ev.lookup desc.klass desc.attr v :: evs,
           Except.ok ((f, CVal.ref none) :: r.1, r.2)))
    ∧ ((desc.skip_missing = false ∨ desc.klass ≠ mn) →
      transform_row_dataset mn cd db ((f, v) :: rest) =
        ([Ev.lookup desc.klass desc.attr v],
         Except.error (MigErr.doesNotExist desc.klass))) := by
  have hfk2 : desc.fk || desc.o2o := by
    rcases hfk with h | h <;> simp [h]
  constructor
  · intro hskip hkl evs r hrest
    rw [hkl] at hmiss
    unfold transform_row_dataset
    rw [hcd]
    simp [hx, hfk2, get_object, hmiss, hskip, hkl, hrest]
  · intro hcase
    unfold transform_row_dataset
    rw [hcd]
    rcases hcase with h | h
    · simp [hx, hfk2, get_object, hmiss, h]
    · simp [hx, hfk2, get_object, hmiss, h]

/-- C2 (counterexample): the claim says a skip-missing single-valued field
whose lookup finds nothing is omitted from the constructor data.  On the
concrete row below the lookup finds nothing and skip_missing is set, yet
the transformed constructor data does contain the field — bound to a null
reference. -/
theorem claim_C2_counterexample :
    transform_row_dataset "M" [("f", fkSkipDesc)] [] [("f", some "x")] =
      ([Ev.lookup "M" "a" (some "x")], Except.ok ([("f", CVal.ref none)], [])) ∧
    ([("f", CVal.ref none)] : List (String × CVal)).lookup "f" = some (CVal.ref none) := by
  decide

/-- C3: in update mode the create-missing / update-existing split is
exhaustive and exclusive.  A row whose search-attribute value finds an
existing record triggers exactly one hook_update_existing call, passed the
found instance and the raw untransformed row, and creates nothing (the
database is returned unchanged).  A row whose lookup finds nothing is not
an error: the full fresh-run row pipeline runs instead, and it never
invokes hook_update_existing. -/
theorem claim_C3_update_split (mn a : String) (cd : List (String × ColumnDesc))
    (db : List Inst) (row : Row) (v : Option String)
    (hv : row.lookup a = some v) :
    (∀ e, findInst db mn a v = some e →
      update_row mn (some a) cd db row =
        ([Ev.lookup mn a v, Ev.updateExisting e row], Except.ok db))
    ∧ (findInst db mn a v = none →
      update_row mn (some a) cd db row =
        (Ev.lookup mn a v :: (process_row mn cd db row).1,
         (process_row mn cd db row).2)
      ∧ (∀ ev ∈ (process_row mn cd db row).1, isUpdateEv ev = false)) := by
  constructor
  · intro e hfound
    exact update_row_found mn a cd db row v e hv hfound
  · intro hmiss
    refine ⟨update_row_missing mn a cd db row v hv hmiss, ?_⟩
    intro ev hev
    exact (process_row_events mn cd db row ev hev).2

/-- C4 (corrected): many-valued resolution.  An absent (None) raw value
contributes nothing — no lookup, no association entry.  A present raw
value, the empty string included, is split by the delimiter and every
token is resolved by one independent lookup: "1,2,3" with delimiter ","
yields exactly three lookups, and (with skip_missing set and the
descriptor class equal to the migration model) the tokens that resolve to
nothing are dropped without failing while the found instances are kept.
Associations are applied only after the target record has been
persisted. -/
theorem claim_C4_many_valued (mn : String) (db : List Inst) (desc : ColumnDesc)
    (f : String) (cd : List (String × ColumnDesc))
    (hcd : cd.lookup f = some desc) (hm2m : desc.m2m = true)
    (hx : desc.exclude = false) (hfk : desc.fk = false) (ho : desc.o2o = false) :
    (∀ rest, transform_row_dataset mn cd db ((f, none) :: rest) =
      transform_row_dataset mn cd db rest)
    ∧ (desc.skip_missing = true → desc.klass = mn → desc.delimiter = "," →
        transform_row_dataset mn cd db [(f, some "1,2,3")] =
          ([Ev.lookup mn desc.attr (some "1"), Ev.lookup mn desc.attr (some "2"),
            Ev.lookup mn desc.attr (some "3")],
           Except.ok ([], [(f, ["1", "2", "3"].filterMap
             (fun t => findInst db mn desc.attr (some t)))])))
    ∧ (∀ db2 row, m2mPrecedesSave (process_row mn cd db2 row).1 = false) := by
  refine ⟨?_, ?_, ?_⟩
  · intro rest
    conv_lhs => rw [transform_row_dataset.eq_def]
    simp [hcd, hx, hfk, ho, hm2m]
  · intro hskip hkl hdel
    unfold transform_row_dataset
    rw [hcd]
    have hsplit : pySplit "1,2,3" desc.delimiter = ["1", "2", "3"] := by
      rw [hdel]; decide
    rw [← hkl]
    simp [hx, hfk, ho, hm2m, hsplit, resolve_tokens_skip db desc hskip, transform_row_dataset]
  · intro db2 row
    exact mps_process_row mn cd db2 row

/-- C4 (counterexample): the claim says an empty raw value resolves to an
empty set of related values.  On the concrete input below the raw value is
the empty string, which the code splits into the single token "" and looks
up; the lookup finds nothing and skip_missing is unset, so the row aborts
with DoesNotExist instead of yielding an empty set. -/
theorem claim_C4_counterexample :
    transform_row_dataset "M" [("f", m2mDesc)] [] [("f", some "")] =
      ([Ev.lookup "M" "a" (some "")], Except.error (MigErr.doesNotExist "M")) := by
  decide

/-- C5: lifecycle hooks.  A successful fresh run fires hook_before_all
exactly once, before any row event, and hook_after_all exactly once, after
the last row event (only the ledger write follows it); an update-mode run
never fires either hook, whatever its outcome. -/
theorem claim_C5_lifecycle_hooks (env : Env) (m : MigrationC) (st : MState) :
    (st.ledger.contains m.name = false →
      ∀ evs st2, migrate env m st = (evs, Except.ok st2) →
        ∃ q mid, evs = Ev.executeQuery q :: Ev.beforeAll :: mid ++
            [Ev.afterAll, Ev.createdAppliedMigration m.name] ∧
          Ev.beforeAll ∉ mid ∧ Ev.afterAll ∉ mid)
    ∧ (st.ledger.contains m.name = true → m.allow_updates = true →
        Ev.beforeAll ∉ (migrate env m st).1 ∧ Ev.afterAll ∉ (migrate env m st).1) := by
  constructor
  · intro hni evs st2 h
    obtain ⟨q, mid, db2, he, hst, hmid⟩ := migrate_fresh_ok env m st evs st2 hni h
    refine ⟨q, mid, he, ?_, ?_⟩
    · intro hmem
      have := (hmid _ hmem).1
      simp [isRowEv] at this
    · intro hmem
      have := (hmid _ hmem).1
      simp [isRowEv] at this
  · intro hl hu
    have hchar := (migrate_update_char env m st hl hu).1
    constructor
    · intro hmem
      rcases hchar _ hmem with h | ⟨q, h⟩
      · simp [isRowEv] at h
      · simp at h
    · intro hmem
      rcases hchar _ hmem with h | ⟨q, h⟩
      · simp [isRowEv] at h
      · simp at h

/-- C7: transactional orchestration.  With commit unset the run executes
(the trace is identical to a committing run) and is then rolled back
unconditionally: the final state is the initial state, so starting from an
empty store there are zero persisted records and zero ledger rows no
matter how many units were scheduled.  With commit set, any propagated
failure also rolls the whole run back to the initial state. -/
theorem claim_C7_transactional_rollback :
    ∀ (env : Env) (ms : List MigrationC) (st : MState),
    (migrator_migrate env ms false st).2.1 = st
    ∧ (∀ e, (migrator_migrate env ms true st).2.2 = Except.error e →
        (migrator_migrate env ms true st).2.1 = st)
    ∧ (∀ c1 c2, (migrator_migrate env ms c1 st).1 = (migrator_migrate env ms c2 st).1) := by
  intro env ms st
  refine ⟨?_, ?_, ?_⟩
  · unfold migrator_migrate
    dsimp only
    split
    · rfl
    · split <;> rfl
  · intro e
    unfold migrator_migrate
    dsimp only
    split
    · intro h; rfl
    · split
      · intro h; exact absurd h (by simp)
      · intro h; rfl
  · intro c1 c2
    unfold migrator_migrate
    dsimp only
    split
    · rfl
    · split <;> rfl

/-- C8: for a unit that is about to execute (not skipped by the ledger),
every malformed configuration of the five-way taxonomy — column
description not a mapping, allow_updates without a search attribute,
depends_on not a list, the model not a model class, the query not a string
containing SELECT — makes migrate raise ImproperlyConfigured with an empty
trace: no query execution, no row read, no side effect. -/
theorem claim_C8_validation_before_query (env : Env) (m : MigrationC) (st : MState)
    (hmal : (¬∃ d, m.column_description = PyObj.dict d) ∨
            (m.allow_updates = true ∧ m.search_attr = none) ∨
            (¬∃ l, m.depends_on = PyObj.list l) ∨
            (¬∃ n, m.model = PyObj.modelClass n) ∨
            (¬∃ q, m.query = PyObj.str q ∧ strContains q "SELECT" = true))
    (hns : migration_required m st.ledger ≠ some false) :
    ∃ msg, migrate env m st = ([], Except.error (MigErr.improperlyConfigured msg)) := by
  obtain ⟨msg, hc⟩ := check_error_of_malformed m hmal
  exact ⟨msg, migrate_invalid env m st msg hns hc⟩

/-- C9: evaluation of the descriptor builder at the repository's own test
input is_a(User, username, fk=True, m2m=True).  The claim (and the test
suite) requires a ConfigurationError at construction time; the is_a of the
sources instead returns a descriptor with both relation kinds set. -/
theorem claim_C9_is_a_accepts_multiple_kinds :
    is_a "User" (some "username") true true false false ";" false =
      Except.ok (ColumnDesc.mk true "User" true false "username" false ";" false) ∧
    (ColumnDesc.mk true "User" true false "username" false ";" false).fk = true ∧
    (ColumnDesc.mk true "User" true false "username" false ";" false).m2m = true := by
  decide

/-- C10: a unit whose ledger record exists with allow_updates unset is
skipped before configuration validation runs: migrate returns right after
the skip notice for every configuration, malformed ones included, raising
nothing. -/
theorem claim_C10_skip_before_validation (env : Env) (m : MigrationC) (st : MState)
    (hl : st.ledger.contains m.name = true) (hu : m.allow_updates = false) :
    migrate env m st = ([Ev.skipNotice m.name], Except.ok st) := by
  exact migrate_skip_eq env m st hl hu

/-- Witness for C1: the three run modes exercised on concrete units (a fresh run over an empty cursor, a skipped unit, an update run). -/
theorem claim_C1_witness :
    ((MState.mk [] ["M0"]).ledger = [] ++ ["M0"] ∧
      ∃ pre, [Ev.executeQuery "SELECT x", Ev.beforeAll, Ev.afterAll,
        Ev.createdAppliedMigration "M0"] = pre ++ [Ev.createdAppliedMigration "M0"] ∧
        ∀ ev ∈ pre, isCreatedEv ev = false) ∧
    migrate envNil mBadQuery (MState.mk [] ["M0"]) =
      ([Ev.skipNotice "M0"], Except.ok (MState.mk [] ["M0"])) ∧
    ((MState.mk [] ["M0"]).ledger = ["M0"] ∧
      ∀ ev ∈ [Ev.executeQuery "SELECT x"], isCreatedEv ev = false) := by
  refine ⟨?_, ?_, ?_⟩
  · exact (claim_C1_run_mode_three_way envNil mWell (MState.mk [] [])).1 (by decide)
      [Ev.executeQuery "SELECT x", Ev.beforeAll, Ev.afterAll, Ev.createdAppliedMigration "M0"]
      (MState.mk [] ["M0"]) (by decide)
  · exact (claim_C1_run_mode_three_way envNil mBadQuery (MState.mk [] ["M0"])).2.1
      (by decide) (by decide)
  · exact (claim_C1_run_mode_three_way envNil mUpd (MState.mk [] ["M0"])).2.2
      (by decide) (by decide) [Ev.executeQuery "SELECT x"] (MState.mk [] ["M0"]) (by decide)

/-- Witness for C2: a skip-missing fk miss places the field, null-valued, in the constructor data; without skip_missing the row aborts. -/
theorem claim_C2_witness :
    transform_row_dataset "M" [("f", fkSkipDesc)] [] [("f", some "x")] =
      (Ev.lookup "M" "a" (some "x") :: [], Except.ok ((("f", CVal.ref none)) :: [], [])) ∧
    transform_row_dataset "M" [("f", fkDesc)] [] [("f", some "x")] =
      ([Ev.lookup "M" "a" (some "x")], Except.error (MigErr.doesNotExist "M")) := by
  constructor
  · exact (claim_C2_skip_missing_resolution "M" [] fkSkipDesc "f" (some "x")
      [("f", fkSkipDesc)] [] rfl (Or.inl rfl) (by decide) (by decide)).1 rfl rfl
      [] ([], []) rfl
  · exact (claim_C2_skip_missing_resolution "M" [] fkDesc "f" (some "x")
      [("f", fkDesc)] [] rfl (Or.inl rfl) (by decide) (by decide)).2 (Or.inl rfl)

/-- Witness for C3: one row that finds its existing record and one row that does not. -/
theorem claim_C3_witness :
    update_row "M" (some "a") [] [Inst.mk "M" [("a", some "1")]] [("a", some "1")] =
      ([Ev.lookup "M" "a" (some "1"),
        Ev.updateExisting (Inst.mk "M" [("a", some "1")]) [("a", some "1")]],
       Except.ok [Inst.mk "M" [("a", some "1")]]) ∧
    (update_row "M" (some "a") [] [] [("a", some "1")] =
      (Ev.lookup "M" "a" (some "1") :: (process_row "M" [] [] [("a", some "1")]).1,
       (process_row "M" [] [] [("a", some "1")]).2)
     ∧ ∀ ev ∈ (process_row "M" [] [] [("a", some "1")]).1, isUpdateEv ev = false) := by
  constructor
  · exact (claim_C3_update_split "M" "a" [] [Inst.mk "M" [("a", some "1")]]
      [("a", some "1")] (some "1") (by decide)).1 (Inst.mk "M" [("a", some "1")]) (by decide)
  · exact (claim_C3_update_split "M" "a" [] [] [("a", some "1")] (some "1")
      (by decide)).2 (by decide)

/-- Witness for C4: an absent value, the three-token split of 1,2,3, and the association-after-save scan on a concrete row. -/
theorem claim_C4_witness :
    (transform_row_dataset "M" [("f", m2mSkipDesc)] [] [("f", none)] =
      transform_row_dataset "M" [("f", m2mSkipDesc)] [] []) ∧
    (transform_row_dataset "M" [("f", m2mSkipDesc)] [] [("f", some "1,2,3")] =
      ([Ev.lookup "M" "a" (some "1"), Ev.lookup "M" "a" (some "2"),
        Ev.lookup "M" "a" (some "3")],
       Except.ok ([], [("f", ["1", "2", "3"].filterMap
         (fun t => findInst [] "M" "a" (some t)))]))) ∧
    m2mPrecedesSave (process_row "M" [("f", m2mSkipDesc)] [] [("f", some "1,2,3")]).1 = false := by
  refine ⟨?_, ?_, ?_⟩
  · exact (claim_C4_many_valued "M" [] m2mSkipDesc "f" [("f", m2mSkipDesc)]
      (by decide) rfl rfl rfl rfl).1 []
  · exact (claim_C4_many_valued "M" [] m2mSkipDesc "f" [("f", m2mSkipDesc)]
      (by decide) rfl rfl rfl rfl).2.1 rfl rfl rfl
  · exact (claim_C4_many_valued "M" [] m2mSkipDesc "f" [("f", m2mSkipDesc)]
      (by decide) rfl rfl rfl rfl).2.2 [] [("f", some "1,2,3")]

/-- Witness for C5: the hook framing of a concrete fresh run and the hookless trace of a concrete update run. -/
theorem claim_C5_witness :
    (∃ q mid, [Ev.executeQuery "SELECT x", Ev.beforeAll, Ev.afterAll,
        Ev.createdAppliedMigration "M0"] = Ev.executeQuery q :: Ev.beforeAll :: mid ++
          [Ev.afterAll, Ev.createdAppliedMigration "M0"] ∧
      Ev.beforeAll ∉ mid ∧ Ev.afterAll ∉ mid) ∧
    Ev.beforeAll ∉ (migrate envNil mUpd (MState.mk [] ["M0"])).1 ∧
    Ev.afterAll ∉ (migrate envNil mUpd (MState.mk [] ["M0"])).1 := by
  constructor
  · exact (claim_C5_lifecycle_hooks envNil mWell (MState.mk [] [])).1 (by decide)
      [Ev.executeQuery "SELECT x", Ev.beforeAll, Ev.afterAll, Ev.createdAppliedMigration "M0"]
      (MState.mk [] ["M0"]) (by decide)
  · exact (claim_C5_lifecycle_hooks envNil mUpd (MState.mk [] ["M0"])).2 (by decide) (by decide)

/-- Witness for C7: a dry run and a failing committing run over one malformed unit both end in the initial state, with identical traces. -/
theorem claim_C7_witness :
    (migrator_migrate envNil [mBadQuery] false (MState.mk [] [])).2.1 = MState.mk [] [] ∧
    (migrator_migrate envNil [mBadQuery] true (MState.mk [] [])).2.1 = MState.mk [] [] ∧
    (migrator_migrate envNil [mBadQuery] false (MState.mk [] [])).1 =
      (migrator_migrate envNil [mBadQuery] true (MState.mk [] [])).1 := by
  refine ⟨?_, ?_, ?_⟩
  · exact (claim_C7_transactional_rollback envNil [mBadQuery] (MState.mk [] [])).1
  · exact (claim_C7_transactional_rollback envNil [mBadQuery] (MState.mk [] [])).2.1
      (MigErr.improperlyConfigured "query has to be a string containing SELECT") (by decide)
  · exact (claim_C7_transactional_rollback envNil [mBadQuery] (MState.mk [] [])).2.2 false true

/-- Witness for C8: a unit whose query attribute is not a string aborts with an empty trace. -/
theorem claim_C8_witness :
    ∃ msg, migrate envNil mBadQuery (MState.mk [] []) =
      ([], Except.error (MigErr.improperlyConfigured msg)) := by
  refine claim_C8_validation_before_query envNil mBadQuery (MState.mk [] []) ?_ (by decide)
  refine Or.inr (Or.inr (Or.inr (Or.inr ?_)))
  rintro ⟨q, hq, h2⟩
  simp [mBadQuery] at hq

/-- Witness for C10: the same malformed unit that aborts validation in C8 is skipped without any error once its ledger row exists. -/
theorem claim_C10_witness :
    migrate envNil mBadQuery (MState.mk [] ["M0"]) =
      ([Ev.skipNotice "M0"], Except.ok (MState.mk [] ["M0"])) ∧
    check_migration mBadQuery =
      Except.error (MigErr.improperlyConfigured "query has to be a string containing SELECT") := by
  constructor
  · exact claim_C10_skip_before_validation envNil mBadQuery (MState.mk [] ["M0"])
      (by decide) (by decide)
  · decide

/-- C6: the dependency sorter.  For distinctly named units: an acyclic
graph sorts into a total order that contains exactly the input units and
in which every resolvable declared dependency precedes its dependent; a
cyclic graph fails with a ConfigurationError naming a unit that really
lies on a dependency cycle; the spec scenario [Author, Post, Comment] with
Comment depending on Author and Post on Comment sorts to [Author, Comment,
Post]; and when the sort fails the orchestrator emits no event at all, so
no source query runs. -/
theorem claim_C6_dependency_sort (all : List MUnit) (hnd : (unitNames all).Nodup) :
    (¬hasCycle all → ∃ l, sortUnits all = Except.ok l ∧
        (∀ u ∈ all, u ∈ l) ∧ (∀ u ∈ l, u ∈ all) ∧
        (unitNames l).Nodup ∧ depsPrecede all l)
    ∧ (hasCycle all → ∃ n, sortUnits all = Except.error (SortErr.cycle n) ∧
        Relation.TransGen (depEdge all) n n)
    ∧ sortUnits [authorU, postU, commentU] = Except.ok [authorU, commentU, postU]
    ∧ (∀ (env : Env) (ms : List MigrationC) (commit : Bool) (st : MState) (e : SortErr),
        sortUnits ((ms.filter (fun m => !m.abstract)).map unitOf) = Except.error e →
        (migrator_migrate env ms commit st).1 = []) := by
  have hinv0 : SortInv all [] := ⟨by simp [unitNames], by simp, depsPrecede_nil all⟩
  have hmega := sortGo_mega all all [] (fun u hu => hu) hinv0
  have hcompl_of_ok : ∀ l, sortUnits all = Except.ok l →
      (∀ u ∈ all, u ∈ l) ∧ (∀ u ∈ l, u ∈ all) ∧ (unitNames l).Nodup ∧ depsPrecede all l := by
    intro l hok
    obtain ⟨⟨hnl, hsub, hdp⟩, _, hmem⟩ := hmega.1 l hok
    refine ⟨?_, hsub, hnl, hdp⟩
    intro u hu
    have hnm : u.name ∈ unitNames l := hmem u hu
    simp [unitNames] at hnm
    obtain ⟨w, hwl, hwname⟩ := hnm
    have hw_all : w ∈ all := hsub w hwl
    have hnd2 : (all.map (fun u => u.name)).Nodup := hnd
    have : w = u := List.inj_on_of_nodup_map hnd2 hw_all hu (by simp [hwname])
    rw [← this]
    exact hwl
  refine ⟨?_, ?_, ?_, ?_⟩
  · intro hnc
    cases hs : sortUnits all with
    | ok l =>
        obtain ⟨h1, h2, h3, h4⟩ := hcompl_of_ok l hs
        exact ⟨l, rfl, h1, h2, h3, h4⟩
    | error e =>
        cases e with
        | cycle n => exact absurd ⟨n, hmega.2.1 n hs⟩ hnc
        | fuelOut => exact absurd (hmega.2.2 hs) (by simp)
  · intro hc
    cases hs : sortUnits all with
    | ok l =>
        obtain ⟨h1, h2, h3, h4⟩ := hcompl_of_ok l hs
        exact absurd hc (sorted_no_cycle all l h1 h3 h4)
    | error e =>
        cases e with
        | cycle n => exact ⟨n, rfl, hmega.2.1 n hs⟩
        | fuelOut => exact absurd (hmega.2.2 hs) (by simp)
  · decide
  · intro env ms commit st e hse
    unfold migrator_migrate
    dsimp only
    split
    · rfl
    · next sorted hsorted =>
        rw [hse] at hsorted
        exact absurd hsorted (by simp)

/-- Witness for C6: the three-unit blog scenario is acyclic and sorts as
the spec requires; a two-unit cycle is rejected with a unit of the cycle;
and the orchestrator given the cyclic pair emits nothing. -/
theorem claim_C6_witness :
    (∃ l, sortUnits [authorU, postU, commentU] = Except.ok l ∧
        (∀ u ∈ [authorU, postU, commentU], u ∈ l) ∧
        (∀ u ∈ l, u ∈ [authorU, postU, commentU]) ∧
        (unitNames l).Nodup ∧ depsPrecede [authorU, postU, commentU] l)
    ∧ (∃ n, sortUnits [cycA, cycB] = Except.error (SortErr.cycle n) ∧
        Relation.TransGen (depEdge [cycA, cycB]) n n)
    ∧ (migrator_migrate envNil [mCycA, mCycB] true (MState.mk [] [])).1 = [] := by
  refine ⟨?_, ?_, ?_⟩
  · apply (claim_C6_dependency_sort [authorU, postU, commentU] (by decide)).1
    rintro ⟨n, hcyc⟩
    have hedge : ∀ a b, depEdge [authorU, postU, commentU] a b →
        ((a = "Post" ∧ b = "Comment") ∨ (a = "Comment" ∧ b = "Author")) := by
      rintro a b ⟨u, hu, rfl, hdep⟩
      simp at hu
      rcases hu with rfl | rfl | rfl
      · simp [authorU] at hdep
      · simp [postU] at hdep
        exact Or.inl ⟨rfl, hdep⟩
      · simp [commentU] at hdep
        exact Or.inr ⟨rfl, hdep⟩
    have hlt : ∀ a b, Relation.TransGen (depEdge [authorU, postU, commentU]) a b →
        (if b = "Post" then 2 else if b = "Comment" then 1 else 0) <
        (if a = "Post" then (2 : Nat) else if a = "Comment" then 1 else 0) := by
      intro a b h
      induction h with
      | single e =>
          rcases hedge _ _ e with ⟨rfl, rfl⟩ | ⟨rfl, rfl⟩ <;> simp
      | tail h2 e ih =>
          rcases hedge _ _ e with ⟨rfl, rfl⟩ | ⟨rfl, rfl⟩ <;> simp_all <;> omega
    exact lt_irrefl _ (hlt n n hcyc)
  · apply (claim_C6_dependency_sort [cycA, cycB] (by decide)).2.1
    refine ⟨"A", Relation.TransGen.tail (b := "B")
      (Relation.TransGen.single ⟨cycA, by simp, rfl, by simp [cycA]⟩)
      ⟨cycB, by simp, rfl, by simp [cycB]⟩⟩
  · exact (claim_C6_dependency_sort [MUnit.mk "A" ["B"], MUnit.mk "B" ["A"]] (by decide)).2.2.2
      envNil [mCycA, mCycB] true (MState.mk [] []) (SortErr.cycle "A") (by decide)

end DataMigration
